import Mathlib

/-!
# extract_href: link extraction, resolution and de-duplication

A shallow embedding of `extract.go` (`FetchAndWriteHrefAttrs` and the types it
uses) together with the parts of Go's `net/url` package the function calls
(`url.Parse`, `(*URL).Parse`, `(*URL).ResolveReference`, `(*URL).String`), and
theorems about the statistics and the lines the function produces.

Go strings are byte sequences; they are embedded as lists of byte values.
The HTTP fetch and the HTML selector engine are collaborators outside the
program and appear as parameters.

The `net/url` functions are not part of the repository. They are embedded
after the Go standard library as of Go 1.22 (control bytes are rejected by
`parse`, `RawFragment` and `OmitHost` exist); the texts of some error values
are abbreviated. The properties of the element loop (counters, order,
de-duplication) do not depend on that embedding; the statements about `#`,
newlines, fragment-only hrefs and the concrete pages do.
-/

namespace ExtractHref

/-! ## Go strings -/

/-- A Go string: an immutable sequence of bytes. -/
abbrev GoString := List Nat

/-- UTF-8 encoding of one code point, as Go source literals are encoded. -/
def utf8EncodeChar (c : Char) : List Nat :=
  let v := c.toNat
  if v ≤ 0x7f then [v]
  else if v ≤ 0x7ff then [0xc0 + v / 64, 0x80 + v % 64]
  else if v ≤ 0xffff then [0xe0 + v / 4096, 0x80 + (v / 64) % 64, 0x80 + v % 64]
  else [0xf0 + v / 262144, 0x80 + (v / 4096) % 64, 0x80 + (v / 64) % 64, 0x80 + v % 64]

/-- The Go string denoted by a string literal. -/
def gostr (s : String) : GoString :=
  s.toList.flatMap utf8EncodeChar

/-- Byte value of an ASCII character literal such as `'/'`. -/
def ch (c : Char) : Nat := c.toNat

/-- The byte of the apostrophe character. -/
def apostrophe : Nat := 39

/-- The byte of the double-quote character. -/
def dquote : Nat := 34

/-- Go `strings.HasPrefix`. -/
def HasPrefix : GoString → GoString → Bool
  | _, [] => true
  | [], _ :: _ => false
  | c :: s, d :: p => c == d && HasPrefix s p

/-- Go `strings.HasSuffix`. -/
def HasSuffix (s suffix : GoString) : Bool :=
  HasPrefix s.reverse suffix.reverse

/-- Go `strings.IndexByte`; `none` stands for `-1`. -/
def IndexByte : GoString → Nat → Option Nat
  | [], _ => none
  | c :: s, x => if c == x then some 0 else (IndexByte s x).map (· + 1)

/-- Go `strings.LastIndexByte`; `none` stands for `-1`. -/
def LastIndexByte : GoString → Nat → Option Nat
  | [], _ => none
  | c :: s, x =>
    match LastIndexByte s x with
    | some i => some (i + 1)
    | none => if c == x then some 0 else none

/-- Go `strings.Index` for a non-empty separator; `none` stands for `-1`. -/
def Index : GoString → GoString → Option Nat
  | [], sep => if sep.isEmpty then some 0 else none
  | c :: s, sep =>
    if HasPrefix (c :: s) sep then some 0 else (Index s sep).map (· + 1)

/-- Go `strings.Count(s, sep)` for a one-byte separator. -/
def CountByte (s : GoString) (x : Nat) : Nat :=
  s.count x

/-- Go `strings.Contains(s, sep)` for a one-byte separator. -/
def ContainsByte (s : GoString) (x : Nat) : Bool :=
  s.contains x

/-- Go `strings.Cut(s, sep)` for a one-byte separator: the text before and
after the first occurrence of the separator, and whether it occurs. -/
def Cut : GoString → Nat → GoString × GoString × Bool
  | [], _ => ([], [], false)
  | c :: s, x =>
    if c == x then ([], s, true)
    else
      let r := Cut s x
      (c :: r.1, r.2.1, r.2.2)

/-- The successive `strings.Cut(remaining, "/")` pieces of a string, i.e. the
elements visited by a loop that cuts until the separator is no longer found. -/
def cutAll : GoString → Nat → List GoString
  | [], _ => [[]]
  | c :: s, x =>
    if c == x then [] :: cutAll s x
    else
      match cutAll s x with
      | [] => [[c]]
      | e :: es => (c :: e) :: es

/-- Go `strings.ToLower` on ASCII text (it is applied to URL schemes only,
which consist of ASCII letters, digits, `+`, `-` and `.`). -/
def ToLower (s : GoString) : GoString :=
  s.map (fun c => if ch 'A' ≤ c ∧ c ≤ ch 'Z' then c + 32 else c)

/-! ## Errors -/

/-- Go error values produced by the program and by `net/url`. -/
inductive GoError where
  /-- An `errors.New` / `fmt.Errorf` error with the given message. -/
  | errorString (msg : String)
  /-- The `url.EscapeError` for the given text. -/
  | EscapeError (s : GoString)
  /-- The `url.InvalidHostError` for the given text. -/
  | InvalidHostError (s : GoString)
  /-- The `*url.Error` wrapping an error with the operation and the URL. -/
  | urlError (op : String) (url : GoString) (err : GoError)
  /-- An error reported by the HTTP client or the HTML reader. -/
  | external (msg : String)
  deriving DecidableEq, Repr

/-! ## net/url: escaping -/

/-- The `encoding` modes of `net/url`. -/
inductive encoding where
  | encodePath
  | encodePathSegment
  | encodeHost
  | encodeZone
  | encodeUserPassword
  | encodeQueryComponent
  | encodeFragment
  deriving DecidableEq, Repr

open encoding

/-- Go `ishex`. -/
def ishex (c : Nat) : Bool :=
  (ch '0' ≤ c && c ≤ ch '9') || (ch 'a' ≤ c && c ≤ ch 'f') || (ch 'A' ≤ c && c ≤ ch 'F')

/-- Go `unhex`. -/
def unhex (c : Nat) : Nat :=
  if ch '0' ≤ c ∧ c ≤ ch '9' then c - ch '0'
  else if ch 'a' ≤ c ∧ c ≤ ch 'f' then c - ch 'a' + 10
  else if ch 'A' ≤ c ∧ c ≤ ch 'F' then c - ch 'A' + 10
  else 0

/-- Go `upperhex[i]` for `i < 16`. -/
def upperhex (i : Nat) : Nat :=
  if i < 10 then ch '0' + i else ch 'A' + (i - 10)

/-- Go `shouldEscape`: whether a byte must be percent-encoded in a given part
of a URL. -/
def shouldEscape (c : Nat) (mode : encoding) : Bool :=
  if (ch 'a' ≤ c && c ≤ ch 'z') || (ch 'A' ≤ c && c ≤ ch 'Z') || (ch '0' ≤ c && c ≤ ch '9') then
    false
  else if (mode == encodeHost || mode == encodeZone) &&
      [ch '!', ch '$', ch '&', apostrophe, ch '(', ch ')', ch '*', ch '+', ch ',', ch ';', ch '=',
        ch ':', ch '[', ch ']', ch '<', ch '>', dquote].contains c then
    false
  else if [ch '-', ch '_', ch '.', ch '~'].contains c then
    false
  else if [ch '$', ch '&', ch '+', ch ',', ch '/', ch ':', ch ';', ch '=', ch '?', ch '@'].contains c then
    match mode with
    | encodePath => c == ch '?'
    | encodePathSegment => c == ch '/' || c == ch ';' || c == ch ',' || c == ch '?'
    | encodeUserPassword => c == ch '@' || c == ch '/' || c == ch '?' || c == ch ':'
    | encodeQueryComponent => true
    | encodeFragment => false
    | _ => true
  else if mode == encodeFragment && [ch '!', ch '(', ch ')', ch '*'].contains c then
    false
  else
    true

/-- First pass of Go `unescape`: checks that every `%` starts a well-formed
escape allowed in the mode, counting the escapes and noting a `+` that stands
for a space. -/
def unescapeCheck (mode : encoding) : GoString → Nat → Bool → Except GoError (Nat × Bool)
  | [], n, hasPlus => .ok (n, hasPlus)
  | c :: s, n, hasPlus =>
    if c == ch '%' then
      match s with
      | h1 :: h2 :: rest =>
        if !ishex h1 || !ishex h2 then
          .error (.EscapeError ((c :: s).take 3))
        else if mode == encodeHost && unhex h1 < 8 && [c, h1, h2] != gostr "%25" then
          .error (.EscapeError [c, h1, h2])
        else if mode == encodeZone && [c, h1, h2] != gostr "%25" &&
            (unhex h1 * 16 + unhex h2) != ch ' ' &&
            shouldEscape (unhex h1 * 16 + unhex h2) encodeHost then
          .error (.EscapeError [c, h1, h2])
        else
          unescapeCheck mode rest (n + 1) hasPlus
      | _ => .error (.EscapeError ((c :: s).take 3))
    else if c == ch '+' then
      unescapeCheck mode s n (mode == encodeQueryComponent)
    else if (mode == encodeHost || mode == encodeZone) && c < 0x80 &&
        shouldEscape c encodeHost then
      .error (.InvalidHostError [c])
    else
      unescapeCheck mode s n hasPlus

/-- Second pass of Go `unescape`: decodes the escapes of a checked string. -/
def unescapeBuild (mode : encoding) : GoString → GoString
  | [] => []
  | c :: s =>
    if c == ch '%' then
      match s with
      | h1 :: h2 :: rest => (unhex h1 * 16 + unhex h2) :: unescapeBuild mode rest
      | _ => []
    else if c == ch '+' then
      (if mode == encodeQueryComponent then ch ' ' else ch '+') :: unescapeBuild mode s
    else
      c :: unescapeBuild mode s

/-- Go `unescape`. -/
def unescape (s : GoString) (mode : encoding) : Except GoError GoString :=
  match unescapeCheck mode s 0 false with
  | .error e => .error e
  | .ok (n, hasPlus) =>
    if n == 0 && !hasPlus then .ok s else .ok (unescapeBuild mode s)

/-- Go `escape`. -/
def escape (s : GoString) (mode : encoding) : GoString :=
  if s.all (fun c => !shouldEscape c mode) then s
  else
    s.flatMap (fun c =>
      if c == ch ' ' && mode == encodeQueryComponent then [ch '+']
      else if shouldEscape c mode then [ch '%', upperhex (c / 16), upperhex (c % 16)]
      else [c])

/-- Go `validEncoded`. -/
def validEncoded (s : GoString) (mode : encoding) : Bool :=
  s.all (fun c =>
    if [ch '!', ch '$', ch '&', apostrophe, ch '(', ch ')', ch '*', ch '+', ch ',', ch ';', ch '=', ch ':',
        ch '@'].contains c then true
    else if c == ch '[' || c == ch ']' then true
    else if c == ch '%' then true
    else !shouldEscape c mode)

/-- Go `stringContainsCTLByte`. -/
def stringContainsCTLByte (s : GoString) : Bool :=
  s.any (fun c => c < ch ' ' || c == 0x7f)

/-! ## net/url: the URL type and parsing -/

/-- Go `url.Userinfo`. -/
structure Userinfo where
  username : GoString
  password : GoString
  passwordSet : Bool
  deriving DecidableEq, Repr

/-- Go `url.URL`; a nil `User` is `none`. -/
structure URL where
  Scheme : GoString := []
  Opaque : GoString := []
  User : Option Userinfo := none
  Host : GoString := []
  Path : GoString := []
  RawPath : GoString := []
  OmitHost : Bool := false
  ForceQuery : Bool := false
  RawQuery : GoString := []
  Fragment : GoString := []
  RawFragment : GoString := []
  deriving DecidableEq, Repr

/-- Loop of Go `getScheme` from index `i`, where `rest` is `rawURL[i:]`. -/
def getSchemeLoop (rawURL : GoString) : Nat → GoString → Except GoError (GoString × GoString)
  | _, [] => .ok ([], rawURL)
  | i, c :: rest =>
    if (ch 'a' ≤ c && c ≤ ch 'z') || (ch 'A' ≤ c && c ≤ ch 'Z') then
      getSchemeLoop rawURL (i + 1) rest
    else if (ch '0' ≤ c && c ≤ ch '9') || c == ch '+' || c == ch '-' || c == ch '.' then
      if i == 0 then .ok ([], rawURL) else getSchemeLoop rawURL (i + 1) rest
    else if c == ch ':' then
      if i == 0 then .error (.errorString "missing protocol scheme")
      else .ok (rawURL.take i, rest)
    else
      .ok ([], rawURL)

/-- Go `getScheme`: splits a leading `scheme:` off a raw URL. -/
def getScheme (rawURL : GoString) : Except GoError (GoString × GoString) :=
  getSchemeLoop rawURL 0 rawURL

/-- Go `validOptionalPort`. -/
def validOptionalPort (port : GoString) : Bool :=
  match port with
  | [] => true
  | c :: digits => c == ch ':' && digits.all (fun d => !(d < ch '0' || d > ch '9'))

/-- Go `validUserinfo`. -/
def validUserinfo (s : GoString) : Bool :=
  s.all (fun r =>
    (ch 'A' ≤ r && r ≤ ch 'Z') || (ch 'a' ≤ r && r ≤ ch 'z') || (ch '0' ≤ r && r ≤ ch '9') ||
    [ch '-', ch '.', ch '_', ch ':', ch '~', ch '!', ch '$', ch '&', apostrophe,
      ch '(', ch ')', ch '*', ch '+', ch ',', ch ';', ch '=', ch '%', ch '@'].contains r)

/-- Go `parseHost`. -/
def parseHost (host : GoString) : Except GoError GoString :=
  if HasPrefix host (gostr "[") then
    match LastIndexByte host (ch ']') with
    | none => .error (.errorString "missing ']' in host")
    | some i =>
      let colonPort := host.drop (i + 1)
      if !validOptionalPort colonPort then
        .error (.errorString "invalid port after host")
      else
        match Index (host.take i) (gostr "%25") with
        | some zone => do
          let host1 ← unescape (host.take zone) encodeHost
          let host2 ← unescape ((host.take i).drop zone) encodeZone
          let host3 ← unescape (host.drop i) encodeHost
          pure (host1 ++ host2 ++ host3)
        | none => unescape host encodeHost
  else
    match LastIndexByte host (ch ':') with
    | some i =>
      if !validOptionalPort (host.drop i) then
        .error (.errorString "invalid port after host")
      else unescape host encodeHost
    | none => unescape host encodeHost

/-- Go `parseAuthority`. -/
def parseAuthority (authority : GoString) : Except GoError (Option Userinfo × GoString) :=
  match LastIndexByte authority (ch '@') with
  | none => do
    let host ← parseHost authority
    pure (none, host)
  | some i => do
    let host ← parseHost (authority.drop (i + 1))
    let userinfo := authority.take i
    if !validUserinfo userinfo then
      throw (.errorString "net/url: invalid userinfo")
    else if !ContainsByte userinfo (ch ':') then do
      let userinfo ← unescape userinfo encodeUserPassword
      pure (some ⟨userinfo, [], false⟩, host)
    else do
      let cut := Cut userinfo (ch ':')
      let username ← unescape cut.1 encodeUserPassword
      let password ← unescape cut.2.1 encodeUserPassword
      pure (some ⟨username, password, true⟩, host)

/-- Go `(*URL).setPath`. -/
def URL.setPath (u : URL) (p : GoString) : Except GoError URL := do
  let path ← unescape p encodePath
  if p == escape path encodePath then
    pure { u with Path := path, RawPath := [] }
  else
    pure { u with Path := path, RawPath := p }

/-- Go `(*URL).setFragment`. -/
def URL.setFragment (u : URL) (f : GoString) : Except GoError URL := do
  let frag ← unescape f encodeFragment
  if f == escape frag encodeFragment then
    pure { u with Fragment := frag, RawFragment := [] }
  else
    pure { u with Fragment := frag, RawFragment := f }

/-- Go `parse`: parses a URL without a fragment. -/
def parse (rawURL : GoString) (viaRequest : Bool) : Except GoError URL :=
  if stringContainsCTLByte rawURL then
    .error (.errorString "net/url: invalid control character in URL")
  else if rawURL == [] && viaRequest then
    .error (.errorString "empty url")
  else if rawURL == gostr "*" then
    .ok { Path := gostr "*" }
  else do
    let (scheme, rest) ← getScheme rawURL
    let url : URL := { Scheme := ToLower scheme }
    let (rest, url) :=
      if HasSuffix rest (gostr "?") && CountByte rest (ch '?') == 1 then
        (rest.take (rest.length - 1), { url with ForceQuery := true })
      else
        let cut := Cut rest (ch '?')
        (cut.1, { url with RawQuery := cut.2.1 })
    if !HasPrefix rest (gostr "/") && url.Scheme != [] then
      pure { url with Opaque := rest }
    else if !HasPrefix rest (gostr "/") && viaRequest then
      throw (.errorString "invalid URI for request")
    else if !HasPrefix rest (gostr "/") && ContainsByte (Cut rest (ch '/')).1 (ch ':') then
      throw (.errorString "first path segment in URL cannot contain colon")
    else if (url.Scheme != [] || (!viaRequest && !HasPrefix rest (gostr "///"))) &&
        HasPrefix rest (gostr "//") then do
      let authority := rest.drop 2
      let (authority, rest) :=
        match IndexByte authority (ch '/') with
        | some i => (authority.take i, authority.drop i)
        | none => (authority, [])
      let (user, host) ← parseAuthority authority
      URL.setPath { url with User := user, Host := host } rest
    else if url.Scheme != [] && HasPrefix rest (gostr "/") then
      URL.setPath { url with OmitHost := true } rest
    else
      URL.setPath url rest

/-- Go `url.Parse`: parses a raw URL, cutting off and decoding the fragment. -/
def Parse (rawURL : GoString) : Except GoError URL :=
  let cut := Cut rawURL (ch '#')
  match parse cut.1 false with
  | .error err => .error (.urlError "parse" cut.1 err)
  | .ok url =>
    if cut.2.1 == [] then .ok url
    else
      match url.setFragment cut.2.1 with
      | .error err => .error (.urlError "parse" rawURL err)
      | .ok url => .ok url

/-- The step of `parse` that splits the query off the text after the
scheme. -/
def parseQueryStep (scheme rest : GoString) : GoString × URL :=
  if HasSuffix rest (gostr "?") && CountByte rest (ch '?') == 1 then
    (rest.take (rest.length - 1), { Scheme := ToLower scheme, ForceQuery := true })
  else
    ((Cut rest (ch '?')).1, { Scheme := ToLower scheme, RawQuery := (Cut rest (ch '?')).2.1 })

/-- The steps of `parse` after the query has been split off. -/
def parseHierStep (viaRequest : Bool) (rest : GoString) (url : URL) : Except GoError URL :=
  if !HasPrefix rest (gostr "/") && url.Scheme != [] then
    pure { url with Opaque := rest }
  else if !HasPrefix rest (gostr "/") && viaRequest then
    throw (.errorString "invalid URI for request")
  else if !HasPrefix rest (gostr "/") && ContainsByte (Cut rest (ch '/')).1 (ch ':') then
    throw (.errorString "first path segment in URL cannot contain colon")
  else if (url.Scheme != [] || (!viaRequest && !HasPrefix rest (gostr "///"))) &&
      HasPrefix rest (gostr "//") then do
    let authority := rest.drop 2
    let (authority, rest) :=
      match IndexByte authority (ch '/') with
      | some i => (authority.take i, authority.drop i)
      | none => (authority, [])
    let (user, host) ← parseAuthority authority
    URL.setPath { url with User := user, Host := host } rest
  else if url.Scheme != [] && HasPrefix rest (gostr "/") then
    URL.setPath { url with OmitHost := true } rest
  else
    URL.setPath url rest

/-! ## net/url: serialisation and reference resolution -/

/-- Go `(*Userinfo).String`. -/
def Userinfo.String (u : Userinfo) : GoString :=
  let s := escape u.username encodeUserPassword
  if u.passwordSet then s ++ gostr ":" ++ escape u.password encodeUserPassword else s

/-- Go `(*URL).EscapedPath`. -/
def URL.EscapedPath (u : URL) : GoString :=
  if u.RawPath != [] && validEncoded u.RawPath encodePath &&
      (match unescape u.RawPath encodePath with
        | .ok p => p == u.Path
        | .error _ => false) then
    u.RawPath
  else if u.Path == gostr "*" then
    gostr "*"
  else
    escape u.Path encodePath

/-- Go `(*URL).EscapedFragment`. -/
def URL.EscapedFragment (u : URL) : GoString :=
  if u.RawFragment != [] && validEncoded u.RawFragment encodeFragment &&
      (match unescape u.RawFragment encodeFragment with
        | .ok f => f == u.Fragment
        | .error _ => false) then
    u.RawFragment
  else
    escape u.Fragment encodeFragment

/-- Go `(*URL).String`: reassembles the URL into a URL string. -/
def URL.String (u : URL) : GoString :=
  let buf : GoString := if u.Scheme != [] then u.Scheme ++ gostr ":" else []
  let buf :=
    if u.Opaque != [] then
      buf ++ u.Opaque
    else
      let buf :=
        if u.Scheme != [] || u.Host != [] || u.User.isSome then
          if u.OmitHost && u.Host == [] && u.User.isNone then
            buf
          else
            let buf := if u.Host != [] || u.Path != [] || u.User.isSome
              then buf ++ gostr "//" else buf
            let buf := match u.User with
              | some ui => buf ++ ui.String ++ gostr "@"
              | none => buf
            if u.Host != [] then buf ++ escape u.Host encodeHost else buf
        else buf
      let path := u.EscapedPath
      let buf := if path != [] && path.head? != some (ch '/') && u.Host != []
        then buf ++ gostr "/" else buf
      let buf := if buf.length == 0 && ContainsByte (Cut path (ch '/')).1 (ch ':')
        then buf ++ gostr "./" else buf
      buf ++ path
  let buf := if u.ForceQuery || u.RawQuery != [] then buf ++ gostr "?" ++ u.RawQuery else buf
  if u.Fragment != [] then buf ++ gostr "#" ++ u.EscapedFragment else buf

/-- State of the loop of Go `resolvePath`: the builder `dst` and the flag
`first`. -/
structure resolvePathState where
  dst : GoString
  first : Bool
  deriving DecidableEq, Repr

/-- One iteration of the loop of Go `resolvePath` on the path element
`elem`. -/
def resolvePathStep (st : resolvePathState) (elem : GoString) : resolvePathState :=
  if elem == gostr "." then
    { st with first := false }
  else if elem == gostr ".." then
    let str := st.dst.drop 1
    match LastIndexByte str (ch '/') with
    | none => { dst := gostr "/", first := true }
    | some index => { dst := gostr "/" ++ str.take index, first := st.first }
  else
    { dst := (if !st.first then st.dst ++ gostr "/" else st.dst) ++ elem, first := false }

/-- Go `resolvePath`: applies a reference path to a base path and removes the
dot segments (RFC 3986 sections 5.2.3 and 5.2.4). -/
def resolvePath (base ref : GoString) : GoString :=
  let full :=
    if ref == [] then base
    else if ref.head? != some (ch '/') then
      (match LastIndexByte base (ch '/') with
        | some i => base.take (i + 1)
        | none => []) ++ ref
    else ref
  if full == [] then []
  else
    let elems := cutAll full (ch '/')
    let st := elems.foldl resolvePathStep { dst := gostr "/", first := true }
    let elem := elems.getLast?.getD []
    let r := if elem == gostr "." || elem == gostr ".." then st.dst ++ gostr "/" else st.dst
    if r.length > 1 && (r.drop 1).head? == some (ch '/') then r.drop 1 else r

/-- The effect of `url.setPath(p)` when the returned error is ignored. -/
def URL.setPathIgnoringError (u : URL) (p : GoString) : URL :=
  match u.setPath p with
  | .ok v => v
  | .error _ => u

/-- Go `(*URL).ResolveReference`: resolves a URI reference to an absolute URI
from the absolute base URI `u` (RFC 3986 section 5.2). -/
def URL.ResolveReference (u ref : URL) : URL :=
  let url := ref
  let url := if ref.Scheme == [] then { url with Scheme := u.Scheme } else url
  if ref.Scheme != [] || ref.Host != [] || ref.User.isSome then
    url.setPathIgnoringError (resolvePath ref.EscapedPath [])
  else if ref.Opaque != [] then
    { url with User := none, Host := [], Path := [] }
  else
    let url :=
      if ref.Path == [] && !ref.ForceQuery && ref.RawQuery == [] then
        let url := { url with RawQuery := u.RawQuery }
        if ref.Fragment == [] then
          { url with Fragment := u.Fragment, RawFragment := u.RawFragment }
        else url
      else url
    if ref.Path == [] && u.Opaque != [] then
      { url with Opaque := u.Opaque, User := none, Host := [], Path := [] }
    else
      let url := { url with Host := u.Host, User := u.User }
      url.setPathIgnoringError (resolvePath u.EscapedPath ref.EscapedPath)

/-- Go `(*URL).Parse`: parses a URL in the context of the receiver. -/
def URL.Parse (u : URL) (ref : GoString) : Except GoError URL :=
  match ExtractHref.Parse ref with
  | .error err => .error err
  | .ok refURL => .ok (u.ResolveReference refURL)

/-! ## Collaborators: the HTML document and the HTTP client -/

/-- An attribute of an HTML element (`html.Attribute`). -/
structure Attribute where
  Key : GoString
  Val : GoString
  deriving DecidableEq, Repr

/-- An HTML element node (`html.Node`), as far as the program inspects it. -/
structure Node where
  Attr : List Attribute
  deriving DecidableEq, Repr

/-- The goquery `(*Selection).Attr` lookup on a one-node selection: the value
of the first attribute with the given name, if one exists. -/
def Node.AttrValue (n : Node) (attrName : GoString) : Option GoString :=
  match n.Attr.find? (fun a => a.Key == attrName) with
  | some a => some a.Val
  | none => none

/-- A parsed document (`goquery.Document`): `Find` returns the nodes a
selector matches, in the order of the selector engine. -/
structure Document where
  Find : GoString → List Node

/-- The HTTP client and the HTML reader. -/
structure Env where
  /-- The response body of `http.Get`, or its error. -/
  httpGet : GoString → Except GoError GoString
  /-- The document of `goquery.NewDocumentFromReader`, or its error. -/
  NewDocumentFromReader : GoString → Except GoError Document

/-- The function `fetchGoqueryUrl`: performs a GET to the passed in url,
returning a parsed goquery document. -/
def fetchGoqueryUrl (env : Env) (urlstr : GoString) : Except GoError Document :=
  match env.httpGet urlstr with
  | .error err => .error err
  | .ok body => env.NewDocumentFromReader body

/-! ## The program -/

/-- The struct `Stats`: tracks state for extracting hrefs from a given
document. -/
structure Stats where
  /-- Elements matched by selector. -/
  Elements : Int := 0
  /-- Elements that have an "href" attribute. -/
  WithHref : Int := 0
  /-- Elements whose absolute url was a duplicate. -/
  Duplicates : Int := 0
  /-- Elements with a valid url. -/
  ValidUrl : Int := 0
  deriving DecidableEq, Repr

/-- A Go `map[string]bool`, as the list of its assignments, latest first. -/
abbrev StringBoolMap := List (GoString × Bool)

/-- The map read `m[k]`: the zero value `false` for a missing key. -/
def StringBoolMap.get (m : StringBoolMap) (k : GoString) : Bool :=
  match m.lookup k with
  | some v => v
  | none => false

/-- The map assignment `m[k] = v`. -/
def StringBoolMap.set (m : StringBoolMap) (k : GoString) (v : Bool) : StringBoolMap :=
  (k, v) :: m

/-- An `io.Writer`, as the payloads of the `Write` calls made on it so far. -/
abbrev Writer := List GoString

/-- The variables the element loop of `FetchAndWriteHrefAttrs` updates. -/
structure LoopState where
  stats : Stats
  added : StringBoolMap
  w : Writer
  deriving DecidableEq, Repr

/-- The body of the element loop of `FetchAndWriteHrefAttrs` for the element
`el`. -/
def loopBody (root : URL) (rootUrl : GoString) (st : LoopState) (el : Node) : LoopState :=
  match el.AttrValue (gostr "href") with
  | none => st
  | some href =>
    let st := { st with stats := { st.stats with WithHref := st.stats.WithHref + 1 } }
    match root.Parse href with
    | .error _ => st
    | .ok abs =>
      let abs := { abs with Fragment := [] }
      let absStr := abs.String
      if absStr != rootUrl && st.added.get absStr == false then
        { stats := { st.stats with ValidUrl := st.stats.ValidUrl + 1 }
          added := st.added.set absStr true
          w := st.w ++ [abs.String ++ gostr "\n"] }
      else
        { st with stats := { st.stats with Duplicates := st.stats.Duplicates + 1 } }

/-- The element loop of `FetchAndWriteHrefAttrs`. -/
def loop (root : URL) (rootUrl : GoString) (elements : List Node) (st : LoopState) : LoopState :=
  elements.foldl (loopBody root rootUrl) st

/-- What a call of `FetchAndWriteHrefAttrs` yields: the returned `*Stats`
(`none` for nil) and error (`none` for nil), the writer afterwards, and the
URLs for which a fetch was started. -/
structure Outcome where
  stats : Option Stats
  err : Option GoError
  w : Writer
  fetched : List GoString

/-- The function `FetchAndWriteHrefAttrs`: fetches a given url, and uses the
provided selector to grab all of the "href" attributes of the HTML document,
writing a line-delimited list of deduplicated absolute urls to `w`. -/
def FetchAndWriteHrefAttrs (env : Env) (rootUrl selector : GoString) (w : Writer) : Outcome :=
  if rootUrl == [] then
    { stats := none, err := some (.errorString "url is required"), w := w, fetched := [] }
  else
    match Parse rootUrl with
    | .error err => { stats := none, err := some err, w := w, fetched := [] }
    | .ok root =>
      match fetchGoqueryUrl env rootUrl with
      | .error err => { stats := none, err := some err, w := w, fetched := [rootUrl] }
      | .ok doc =>
        let elements := doc.Find selector
        let st : LoopState :=
          { stats := { Elements := elements.length }, added := [], w := w }
        let st := loop root rootUrl elements st
        { stats := some st.stats, err := none, w := st.w, fetched := [rootUrl] }

/-! ## Derived notions used to state the properties -/

/-- The string `absStr` the loop body computes for an href: the serialisation
of the href resolved against the root with its fragment set to the empty
string, or `none` when the resolution returns an error. -/
def resolveHref (root : URL) (href : GoString) : Option GoString :=
  match root.Parse href with
  | .ok abs => some (URL.String { abs with Fragment := [] })
  | .error _ => none

/-- The href values of the elements that carry an href attribute, in element
order. -/
def hrefs (elements : List Node) : List GoString :=
  elements.filterMap (fun el => el.AttrValue (gostr "href"))

/-- The fragment-stripped absolute URL strings of the elements whose href
exists and resolves, in element order. -/
def resolvedHrefs (root : URL) (elements : List Node) : List GoString :=
  (hrefs elements).filterMap (resolveHref root)

/-- The hrefs, in element order, whose resolution returns an error. -/
def unresolvedHrefs (root : URL) (elements : List Node) : List GoString :=
  (hrefs elements).filter (fun h => (resolveHref root h).isNone)

/-- First-occurrence de-duplication as the specification words it: of the
strings `s` in order, keep each one that differs from `rootUrl` and that no
earlier string equals (`earlier` holds the strings already passed). -/
def firstOccurrences (rootUrl : GoString) : List GoString → List GoString → List GoString
  | _, [] => []
  | earlier, s :: rest =>
    if s ≠ rootUrl ∧ s ∉ earlier then s :: firstOccurrences rootUrl (earlier ++ [s]) rest
    else firstOccurrences rootUrl (earlier ++ [s]) rest

/-- The newline byte. -/
def newline : Nat := 10

/-- The line written for an accepted URL string: the string and a newline. -/
def line (s : GoString) : GoString :=
  s ++ gostr "\n"

/-- The loop invariant relating the map `added` to the strings already
passed. -/
def AddedMatches (rootUrl : GoString) (added : StringBoolMap) (earlier : List GoString) : Prop :=
  ∀ s, added.get s = true ↔ (s ∈ earlier ∧ s ≠ rootUrl)

/-- Adds `e`, `h` and `d` to the counters `Elements`, `WithHref` and
`Duplicates` of a loop state; these counters never influence the loop. -/
def LoopState.bump (e h d : Int) (st : LoopState) : LoopState :=
  { st with stats := { st.stats with Elements := st.stats.Elements + e,
                                     WithHref := st.stats.WithHref + h,
                                     Duplicates := st.stats.Duplicates + d } }

/-- The same bump on a `Stats` value. -/
def Stats.bump (e h d : Int) (s : Stats) : Stats :=
  { s with Elements := s.Elements + e, WithHref := s.WithHref + h,
           Duplicates := s.Duplicates + d }

/-- The text `escape` builds when it does not return its argument. -/
def escapeAll (s : GoString) (mode : encoding) : GoString :=
  s.flatMap (fun c =>
    if c == ch ' ' && mode == encodeQueryComponent then [ch '+']
    else if shouldEscape c mode then [ch '%', upperhex (c / 16), upperhex (c % 16)]
    else [c])

/-- The source URL string is in the form that resolving the empty reference
against it reproduces: its parse serialises back to it, it has no fragment and
no bare trailing `?`, its host is not omitted, and its escaped path has no dot
segments. -/
def CanonicalSource (rootUrl : GoString) (root : URL) : Prop :=
  root.String = rootUrl ∧ root.Fragment = [] ∧ root.ForceQuery = false ∧
    root.OmitHost = false ∧ resolvePath root.EscapedPath [] = root.EscapedPath

/-- Whether a byte is an ASCII letter or digit. -/
def isAlnum (c : Nat) : Bool :=
  (ch 'a' ≤ c && c ≤ ch 'z') || (ch 'A' ≤ c && c ≤ ch 'Z') || (ch '0' ≤ c && c ≤ ch '9')

/-- The URL string `http://host/seg`. -/
def plainHttpUrl (host seg : GoString) : GoString :=
  gostr "http://" ++ host ++ gostr "/" ++ seg

/-- The URL value with scheme `http`, the given host and the path `/seg`. -/
def plainHttpRoot (host seg : GoString) : URL :=
  { Scheme := gostr "http", Host := host, Path := gostr "/" ++ seg }

/-! ## Fixtures: the document of `extract_test.go` -/

/-- An anchor element `<a>` without attributes. -/
def anchorNoHref : Node :=
  { Attr := [] }

/-- An anchor element `<a href="...">`. -/
def anchor (href : String) : Node :=
  { Attr := [{ Key := gostr "href", Val := gostr href }] }

/-- The anchors of the page served by `NewTestServer` at `/1`, in document
order. -/
def testAnchors : List Node :=
  [anchorNoHref, anchor "#bad", anchor "/rel-endpoint",
    anchor "http://youtube.com/external-link"]

/-- Anchors with a repeated target, a fragment-only href, a fragment variant
of an earlier target and a relative path, in document order. -/
def sampleAnchors : List Node :=
  [anchor "/b", anchor "#x", anchor "/a", anchor "/b#y", anchor "a"]

/-- A page on which the selector `a` matches the given elements and every
other selector matches nothing. -/
def pageOf (elements : List Node) : Document :=
  { Find := fun selector => if selector = gostr "a" then elements else [] }

/-- A server whose every GET succeeds with the page `pageOf elements`. -/
def serverWith (elements : List Node) : Env :=
  { httpGet := fun _ => .ok []
    NewDocumentFromReader := fun _ => .ok (pageOf elements) }

/-- The URL value that `url.Parse` returns for `http://host/1`. -/
def hostRoot : URL :=
  { Scheme := gostr "http", Host := gostr "host", Path := gostr "/1" }

/-! ## The element loop -/

theorem get_set (m : StringBoolMap) (k s : GoString) :
    (m.set k true).get s = true ↔ (s = k ∨ m.get s = true) := by
  unfold StringBoolMap.set StringBoolMap.get
  by_cases h : s = k
  · subst h
    simp [List.lookup]
  · have h2 : (s == k) = false := by simpa using h
    simp [List.lookup, h2, h]

/-- The loop body in terms of `resolveHref`. -/
theorem loopBody_eq (root : URL) (rootUrl : GoString) (st : LoopState) (el : Node) :
    loopBody root rootUrl st el =
      match el.AttrValue (gostr "href") with
      | none => st
      | some href =>
        match resolveHref root href with
        | none => { st with stats := { st.stats with WithHref := st.stats.WithHref + 1 } }
        | some s =>
          if s ≠ rootUrl ∧ st.added.get s = false then
            { stats := { st.stats with WithHref := st.stats.WithHref + 1,
                                       ValidUrl := st.stats.ValidUrl + 1 }
              added := st.added.set s true
              w := st.w ++ [line s] }
          else
            { st with stats := { st.stats with WithHref := st.stats.WithHref + 1,
                                               Duplicates := st.stats.Duplicates + 1 } } := by
  unfold loopBody resolveHref
  cases el.AttrValue (gostr "href") with
  | none => rfl
  | some href =>
    dsimp only
    cases root.Parse href with
    | error e => rfl
    | ok abs =>
      dsimp only [line]
      by_cases h : URL.String { abs with Fragment := [] } ≠ rootUrl ∧
          st.added.get (URL.String { abs with Fragment := [] }) = false
      · rw [if_pos h, if_pos (by simpa using h)]
      · rw [if_neg h, if_neg (by simpa using h)]

theorem loopBody_noHref (root : URL) (rootUrl : GoString) (st : LoopState) (el : Node)
    (h : el.AttrValue (gostr "href") = none) : loopBody root rootUrl st el = st := by
  rw [loopBody_eq, h]

theorem loopBody_unresolved (root : URL) (rootUrl : GoString) (st : LoopState) (el : Node)
    (href : GoString) (h : el.AttrValue (gostr "href") = some href)
    (hr : resolveHref root href = none) :
    loopBody root rootUrl st el =
      { st with stats := { st.stats with WithHref := st.stats.WithHref + 1 } } := by
  rw [loopBody_eq, h]
  dsimp only
  rw [hr]

theorem loopBody_new (root : URL) (rootUrl : GoString) (st : LoopState) (el : Node)
    (href s : GoString) (h : el.AttrValue (gostr "href") = some href)
    (hr : resolveHref root href = some s) (hs : s ≠ rootUrl) (ha : st.added.get s = false) :
    loopBody root rootUrl st el =
      { stats := { st.stats with WithHref := st.stats.WithHref + 1,
                                 ValidUrl := st.stats.ValidUrl + 1 }
        added := st.added.set s true
        w := st.w ++ [line s] } := by
  rw [loopBody_eq, h]
  dsimp only
  rw [hr]
  dsimp only
  rw [if_pos ⟨hs, ha⟩]

theorem loopBody_duplicate (root : URL) (rootUrl : GoString) (st : LoopState) (el : Node)
    (href s : GoString) (h : el.AttrValue (gostr "href") = some href)
    (hr : resolveHref root href = some s) (hs : s = rootUrl ∨ st.added.get s = true) :
    loopBody root rootUrl st el =
      { st with stats := { st.stats with WithHref := st.stats.WithHref + 1,
                                         Duplicates := st.stats.Duplicates + 1 } } := by
  rw [loopBody_eq, h]
  dsimp only
  rw [hr]
  dsimp only
  rw [if_neg]
  rintro ⟨h1, h2⟩
  rcases hs with hs | hs
  · exact h1 hs
  · rw [hs] at h2
    cases h2

/-- What the element loop does, from any state whose map matches the strings
already passed. -/
theorem loop_spec (root : URL) (rootUrl : GoString) :
    ∀ (elements : List Node) (st : LoopState) (earlier : List GoString),
      AddedMatches rootUrl st.added earlier →
      (loop root rootUrl elements st).w =
          st.w ++ (firstOccurrences rootUrl earlier (resolvedHrefs root elements)).map line ∧
        (loop root rootUrl elements st).stats.Elements = st.stats.Elements ∧
        (loop root rootUrl elements st).stats.WithHref =
          st.stats.WithHref + (hrefs elements).length ∧
        (loop root rootUrl elements st).stats.ValidUrl = st.stats.ValidUrl +
          (firstOccurrences rootUrl earlier (resolvedHrefs root elements)).length ∧
        (loop root rootUrl elements st).stats.ValidUrl +
            (loop root rootUrl elements st).stats.Duplicates =
          st.stats.ValidUrl + st.stats.Duplicates + (resolvedHrefs root elements).length := by
  intro elements
  induction elements with
  | nil =>
    intro st earlier _
    simp [loop, resolvedHrefs, hrefs, firstOccurrences]
  | cons el rest ih =>
    intro st earlier hinv
    have hstep : loop root rootUrl (el :: rest) st =
        loop root rootUrl rest (loopBody root rootUrl st el) := rfl
    rw [hstep]
    cases h : el.AttrValue (gostr "href") with
    | none =>
      rw [loopBody_noHref root rootUrl st el h]
      have h1 : hrefs (el :: rest) = hrefs rest := by
        simp [hrefs, List.filterMap_cons, h]
      have h2 : resolvedHrefs root (el :: rest) = resolvedHrefs root rest := by
        simp [resolvedHrefs, h1]
      rw [h1, h2]
      exact ih st earlier hinv
    | some href =>
      have h1 : hrefs (el :: rest) = href :: hrefs rest := by
        simp [hrefs, List.filterMap_cons, h]
      cases hr : resolveHref root href with
      | none =>
        rw [loopBody_unresolved root rootUrl st el href h hr]
        have h2 : resolvedHrefs root (el :: rest) = resolvedHrefs root rest := by
          simp [resolvedHrefs, h1, List.filterMap_cons, hr]
        rw [h1, h2]
        obtain ⟨a1, a2, a3, a4, a5⟩ := ih
          { st with stats := { st.stats with WithHref := st.stats.WithHref + 1 } } earlier hinv
        refine ⟨a1, a2, ?_, a4, a5⟩
        rw [a3]
        simp only [List.length_cons]
        push_cast
        ring
      | some s =>
        have h2 : resolvedHrefs root (el :: rest) = s :: resolvedHrefs root rest := by
          simp [resolvedHrefs, h1, List.filterMap_cons, hr]
        rw [h1, h2]
        by_cases hs : s ≠ rootUrl ∧ st.added.get s = false
        · rw [loopBody_new root rootUrl st el href s h hr hs.1 hs.2]
          have hnot : s ∉ earlier := by
            intro hmem
            have := (hinv s).2 ⟨hmem, hs.1⟩
            rw [hs.2] at this
            cases this
          have hinv2 : AddedMatches rootUrl (st.added.set s true) (earlier ++ [s]) := by
            intro t
            rw [get_set, hinv t]
            constructor
            · rintro (ht | ht)
              · subst ht
                exact ⟨by simp, hs.1⟩
              · exact ⟨by simp [ht.1], ht.2⟩
            · rintro ⟨ht, hne⟩
              rcases List.mem_append.1 ht with ht | ht
              · exact Or.inr ⟨ht, hne⟩
              · exact Or.inl (by simpa using ht)
          obtain ⟨a1, a2, a3, a4, a5⟩ := ih
            { stats := { st.stats with WithHref := st.stats.WithHref + 1,
                                       ValidUrl := st.stats.ValidUrl + 1 }
              added := st.added.set s true
              w := st.w ++ [line s] } (earlier ++ [s]) hinv2
          have hfo : firstOccurrences rootUrl earlier (s :: resolvedHrefs root rest) =
              s :: firstOccurrences rootUrl (earlier ++ [s]) (resolvedHrefs root rest) := by
            rw [firstOccurrences, if_pos ⟨hs.1, hnot⟩]
          rw [hfo]
          refine ⟨?_, a2, ?_, ?_, ?_⟩
          · rw [a1]
            simp
          · rw [a3]
            simp only [List.length_cons]
            push_cast
            ring
          · rw [a4]
            simp only [List.length_cons]
            push_cast
            ring
          · rw [a5]
            simp only [List.length_cons]
            push_cast
            ring
        · have hs2 : s = rootUrl ∨ st.added.get s = true := by
            by_cases e : s = rootUrl
            · exact Or.inl e
            · right
              cases hget : st.added.get s with
              | true => rfl
              | false => exact absurd ⟨e, hget⟩ hs
          rw [loopBody_duplicate root rootUrl st el href s h hr hs2]
          have hnot : ¬ (s ≠ rootUrl ∧ s ∉ earlier) := by
            rintro ⟨e, hmem⟩
            rcases hs2 with h3 | h3
            · exact e h3
            · exact hmem ((hinv s).1 h3).1
          have hinv2 : AddedMatches rootUrl st.added (earlier ++ [s]) := by
            intro t
            rw [hinv t]
            constructor
            · rintro ⟨ht, hne⟩
              exact ⟨by simp [ht], hne⟩
            · rintro ⟨ht, hne⟩
              rcases List.mem_append.1 ht with ht | ht
              · exact ⟨ht, hne⟩
              · have hts : t = s := by simpa using ht
                subst hts
                rcases hs2 with h3 | h3
                · exact absurd h3 hne
                · exact (hinv t).1 h3
          obtain ⟨a1, a2, a3, a4, a5⟩ := ih
            { st with stats := { st.stats with WithHref := st.stats.WithHref + 1,
                                               Duplicates := st.stats.Duplicates + 1 } }
            (earlier ++ [s]) hinv2
          have hfo : firstOccurrences rootUrl earlier (s :: resolvedHrefs root rest) =
              firstOccurrences rootUrl (earlier ++ [s]) (resolvedHrefs root rest) := by
            rw [firstOccurrences, if_neg hnot]
          rw [hfo]
          refine ⟨a1, a2, ?_, a4, ?_⟩
          · rw [a3]
            simp only [List.length_cons]
            push_cast
            ring
          · rw [a5]
            simp only [List.length_cons]
            push_cast
            ring

/-- Bumping the counters that do not steer the loop commutes with the loop
body. -/
theorem loopBody_bump (root : URL) (rootUrl : GoString) (e h d : Int) (st : LoopState)
    (el : Node) :
    loopBody root rootUrl (st.bump e h d) el = (loopBody root rootUrl st el).bump e h d := by
  rw [loopBody_eq, loopBody_eq]
  cases el.AttrValue (gostr "href") with
  | none => rfl
  | some href =>
    dsimp only
    cases resolveHref root href with
    | none =>
      simp only [LoopState.bump, LoopState.mk.injEq, Stats.mk.injEq, and_true, true_and]
      ring
    | some s =>
      dsimp only
      by_cases hc : s ≠ rootUrl ∧ st.added.get s = false
      · have hc2 : s ≠ rootUrl ∧ (st.bump e h d).added.get s = false := hc
        rw [if_pos hc, if_pos hc2]
        simp only [LoopState.bump, LoopState.mk.injEq, Stats.mk.injEq, and_true, true_and]
        ring
      · have hc2 : ¬ (s ≠ rootUrl ∧ (st.bump e h d).added.get s = false) := hc
        rw [if_neg hc, if_neg hc2]
        simp only [LoopState.bump, LoopState.mk.injEq, Stats.mk.injEq, and_true, true_and]
        constructor <;> ring

theorem loop_bump (root : URL) (rootUrl : GoString) (e h d : Int) :
    ∀ (elements : List Node) (st : LoopState),
      loop root rootUrl elements (st.bump e h d) = (loop root rootUrl elements st).bump e h d := by
  intro elements
  induction elements with
  | nil => intro st; rfl
  | cons el rest ih =>
    intro st
    show loop root rootUrl rest (loopBody root rootUrl (st.bump e h d) el) = _
    rw [loopBody_bump, ih]
    rfl

theorem loop_append (root : URL) (rootUrl : GoString) (xs ys : List Node) (st : LoopState) :
    loop root rootUrl (xs ++ ys) st = loop root rootUrl ys (loop root rootUrl xs st) := by
  simp [loop, List.foldl_append]

/-- An element whose loop body only bumps counters can be left out of the
element list, up to those counters. -/
theorem loop_skip (root : URL) (rootUrl : GoString) (h d : Int) (el : Node)
    (hel : ∀ st, loopBody root rootUrl st el = st.bump 0 h d)
    (pre post : List Node) (st : LoopState) :
    loop root rootUrl (pre ++ el :: post) st = (loop root rootUrl (pre ++ post) st).bump 0 h d := by
  rw [loop_append, loop_append]
  show loop root rootUrl post (loopBody root rootUrl _ el) = _
  rw [hel, loop_bump]

/-! ## The function as a whole -/

/-- The initial loop state of `FetchAndWriteHrefAttrs`. -/
theorem FetchAndWriteHrefAttrs_ok (env : Env) (rootUrl selector : GoString) (w : Writer)
    (root : URL) (doc : Document) (h0 : rootUrl ≠ []) (hp : Parse rootUrl = .ok root)
    (hf : fetchGoqueryUrl env rootUrl = .ok doc) :
    FetchAndWriteHrefAttrs env rootUrl selector w =
      { stats := some (loop root rootUrl (doc.Find selector)
          { stats := { Elements := (doc.Find selector).length }, added := [], w := w }).stats
        err := none
        w := (loop root rootUrl (doc.Find selector)
          { stats := { Elements := (doc.Find selector).length }, added := [], w := w }).w
        fetched := [rootUrl] } := by
  unfold FetchAndWriteHrefAttrs
  have h1 : (rootUrl == []) = false := by simpa using h0
  rw [h1, hp, hf]
  rfl

/-- A call that returns stats has parsed the source URL and fetched a
document. -/
theorem FetchAndWriteHrefAttrs_stats (env : Env) (rootUrl selector : GoString) (w : Writer)
    (s : Stats) (h : (FetchAndWriteHrefAttrs env rootUrl selector w).stats = some s) :
    ∃ root doc, rootUrl ≠ [] ∧ Parse rootUrl = .ok root ∧
      fetchGoqueryUrl env rootUrl = .ok doc := by
  unfold FetchAndWriteHrefAttrs at h
  by_cases h0 : rootUrl = []
  · simp [h0] at h
  · have h1 : (rootUrl == []) = false := by simpa using h0
    rw [h1] at h
    cases hp : Parse rootUrl with
    | error e => rw [hp] at h; simp at h
    | ok root =>
      cases hf : fetchGoqueryUrl env rootUrl with
      | error e => rw [hp, hf] at h; simp at h
      | ok doc => exact ⟨root, doc, h0, rfl, rfl⟩

/-- A call that does not return stats writes nothing. -/
theorem FetchAndWriteHrefAttrs_none (env : Env) (rootUrl selector : GoString) (w : Writer)
    (h : (FetchAndWriteHrefAttrs env rootUrl selector w).stats = none) :
    (FetchAndWriteHrefAttrs env rootUrl selector w).w = w := by
  unfold FetchAndWriteHrefAttrs at h ⊢
  by_cases h0 : rootUrl = []
  · simp [h0]
  · have h1 : (rootUrl == []) = false := by simpa using h0
    rw [h1] at h ⊢
    cases hp : Parse rootUrl with
    | error e => simp
    | ok root =>
      cases hf : fetchGoqueryUrl env rootUrl with
      | error e => simp
      | ok doc => rw [hp, hf] at h; simp at h

theorem addedMatches_nil (rootUrl : GoString) : AddedMatches rootUrl [] [] := by
  intro s
  simp [StringBoolMap.get, List.lookup]

/-- The statistics and the writes of a successful call. -/
theorem run_spec (env : Env) (rootUrl selector : GoString) (w : Writer)
    (root : URL) (doc : Document) (h0 : rootUrl ≠ []) (hp : Parse rootUrl = .ok root)
    (hf : fetchGoqueryUrl env rootUrl = .ok doc) :
    ∃ s : Stats,
      (FetchAndWriteHrefAttrs env rootUrl selector w).stats = some s ∧
      (FetchAndWriteHrefAttrs env rootUrl selector w).err = none ∧
      (FetchAndWriteHrefAttrs env rootUrl selector w).fetched = [rootUrl] ∧
      (FetchAndWriteHrefAttrs env rootUrl selector w).w =
        w ++ (firstOccurrences rootUrl [] (resolvedHrefs root (doc.Find selector))).map line ∧
      s.Elements = (doc.Find selector).length ∧
      s.WithHref = (hrefs (doc.Find selector)).length ∧
      s.ValidUrl =
        (firstOccurrences rootUrl [] (resolvedHrefs root (doc.Find selector))).length ∧
      s.ValidUrl + s.Duplicates = (resolvedHrefs root (doc.Find selector)).length := by
  rw [FetchAndWriteHrefAttrs_ok env rootUrl selector w root doc h0 hp hf]
  obtain ⟨a1, a2, a3, a4, a5⟩ := loop_spec root rootUrl (doc.Find selector)
    { stats := { Elements := (doc.Find selector).length }, added := [], w := w } []
    (addedMatches_nil rootUrl)
  refine ⟨_, rfl, rfl, rfl, a1, a2, ?_, ?_, ?_⟩
  · rw [a3]; simp
  · rw [a4]; simp
  · rw [a5]; simp

/-! ## First-occurrence de-duplication -/

theorem firstOccurrences_mem (rootUrl : GoString) :
    ∀ (l earlier : List GoString) (s : GoString),
      s ∈ firstOccurrences rootUrl earlier l ↔ (s ∈ l ∧ s ≠ rootUrl ∧ s ∉ earlier) := by
  intro l
  induction l with
  | nil => intro earlier s; simp [firstOccurrences]
  | cons x rest ih =>
    intro earlier s
    rw [firstOccurrences]
    by_cases hx : x ≠ rootUrl ∧ x ∉ earlier
    · rw [if_pos hx, List.mem_cons, ih]
      constructor
      · rintro (h | ⟨h1, h2, h3⟩)
        · subst h
          exact ⟨by simp, hx.1, hx.2⟩
        · exact ⟨by simp [h1], h2, fun hm => h3 (by simp [hm])⟩
      · rintro ⟨h1, h2, h3⟩
        by_cases hsx : s = x
        · exact Or.inl hsx
        · right
          refine ⟨?_, h2, ?_⟩
          · rcases List.mem_cons.1 h1 with h | h
            · exact absurd h hsx
            · exact h
          · intro hm
            rcases List.mem_append.1 hm with h | h
            · exact h3 h
            · exact hsx (by simpa using h)
    · rw [if_neg hx, ih]
      constructor
      · rintro ⟨h1, h2, h3⟩
        exact ⟨by simp [h1], h2, fun hm => h3 (by simp [hm])⟩
      · rintro ⟨h1, h2, h3⟩
        have hsx : s ≠ x := by
          intro h
          subst h
          exact hx ⟨h2, h3⟩
        refine ⟨?_, h2, ?_⟩
        · rcases List.mem_cons.1 h1 with h | h
          · exact absurd h hsx
          · exact h
        · intro hm
          rcases List.mem_append.1 hm with h | h
          · exact h3 h
          · exact hsx (by simpa using h)

theorem firstOccurrences_nodup (rootUrl : GoString) :
    ∀ (l earlier : List GoString), (firstOccurrences rootUrl earlier l).Nodup := by
  intro l
  induction l with
  | nil => intro earlier; simp [firstOccurrences]
  | cons x rest ih =>
    intro earlier
    rw [firstOccurrences]
    by_cases hx : x ≠ rootUrl ∧ x ∉ earlier
    · rw [if_pos hx, List.nodup_cons]
      refine ⟨?_, ih _⟩
      intro hm
      have := ((firstOccurrences_mem rootUrl rest (earlier ++ [x]) x).1 hm).2.2
      exact this (by simp)
    · rw [if_neg hx]
      exact ih _

theorem firstOccurrences_length_le (rootUrl : GoString) :
    ∀ (l earlier : List GoString), (firstOccurrences rootUrl earlier l).length ≤ l.length := by
  intro l
  induction l with
  | nil => intro earlier; simp [firstOccurrences]
  | cons x rest ih =>
    intro earlier
    rw [firstOccurrences]
    by_cases hx : x ≠ rootUrl ∧ x ∉ earlier
    · rw [if_pos hx]
      simpa using ih (earlier ++ [x])
    · rw [if_neg hx]
      exact Nat.le_succ_of_le (ih (earlier ++ [x]))

/-- The number of strings kept is the number of distinct strings other than
`rootUrl`. -/
theorem firstOccurrences_length (rootUrl : GoString) (l : List GoString) :
    (firstOccurrences rootUrl [] l).length = ((l.filter (fun s => s ≠ rootUrl)).dedup).length := by
  apply List.Perm.length_eq
  rw [List.perm_ext_iff_of_nodup (firstOccurrences_nodup rootUrl l []) (List.nodup_dedup _)]
  intro s
  rw [firstOccurrences_mem, List.mem_dedup, List.mem_filter]
  simp

/-- The strings kept by `firstOccurrences` are those at the positions `i`
whose string differs from `rootUrl` and from every string at an earlier
position. -/
theorem firstOccurrences_indexed (rootUrl : GoString) :
    ∀ (l earlier : List GoString),
      firstOccurrences rootUrl earlier l =
        (List.range l.length).filterMap (fun i =>
          (l[i]?).bind (fun s =>
            if s ≠ rootUrl ∧ s ∉ earlier ++ l.take i then some s else none)) := by
  intro l
  induction l with
  | nil => intro earlier; rfl
  | cons x rest ih =>
    intro earlier
    rw [firstOccurrences, List.length_cons, List.range_succ_eq_map, List.filterMap_cons,
      List.filterMap_map]
    have htail : firstOccurrences rootUrl (earlier ++ [x]) rest =
        List.filterMap ((fun i => ((x :: rest)[i]?).bind (fun s =>
          if s ≠ rootUrl ∧ s ∉ earlier ++ (x :: rest).take i then some s else none)) ∘ Nat.succ)
          (List.range rest.length) := by
      rw [ih (earlier ++ [x])]
      apply List.filterMap_congr
      intro i _
      simp [List.append_assoc]
    by_cases hx : x ≠ rootUrl ∧ x ∉ earlier
    · rw [if_pos hx, htail]
      simp [hx]
    · rw [if_neg hx, htail]
      have hx2 : ¬ (¬ x = rootUrl ∧ x ∉ earlier) := hx
      simp [hx2]


theorem hrefs_length_le (elements : List Node) : (hrefs elements).length ≤ elements.length :=
  List.length_filterMap_le _ _

theorem resolved_add_unresolved (root : URL) (elements : List Node) :
    (resolvedHrefs root elements).length + (unresolvedHrefs root elements).length =
      (hrefs elements).length := by
  unfold resolvedHrefs unresolvedHrefs
  induction hrefs elements with
  | nil => rfl
  | cons h rest ih =>
    cases hr : resolveHref root h with
    | none =>
      simp only [List.filterMap_cons, hr, List.filter_cons, Option.isNone_none, if_true,
        List.length_cons]
      omega
    | some s =>
      simp only [List.filterMap_cons, hr, List.filter_cons, Option.isNone_some,
        List.length_cons]
      simp only [Bool.false_eq_true, if_false]
      omega

/-! ## Properties of the statistics -/

/-- C1, as stated, fails: on the page `<a href="%zz">` fetched from
`http://host/1` the call returns stats without error, with `WithHref = 1`
but `ValidUrl + Duplicates = 0`, because the href does not resolve. -/
theorem withHref_eq_counterexample :
    (FetchAndWriteHrefAttrs (serverWith [anchor "%zz"]) (gostr "http://host/1") (gostr "a") []).err
        = none ∧
      (FetchAndWriteHrefAttrs (serverWith [anchor "%zz"]) (gostr "http://host/1") (gostr "a")
          []).stats = some { Elements := 1, WithHref := 1, Duplicates := 0, ValidUrl := 0 } ∧
      ¬ ((1 : Int) = 0 + 0) := by
  decide

/-- C1, amended: when `FetchAndWriteHrefAttrs` returns stats, `WithHref`
equals `ValidUrl + Duplicates` plus the number of matched elements whose href
fails to resolve against the source URL; so `WithHref = ValidUrl + Duplicates`
holds whenever every href resolves. -/
theorem withHref_eq (env : Env) (rootUrl selector : GoString) (w : Writer) (s : Stats)
    (h : (FetchAndWriteHrefAttrs env rootUrl selector w).stats = some s) :
    ∃ root doc, Parse rootUrl = .ok root ∧ fetchGoqueryUrl env rootUrl = .ok doc ∧
      s.WithHref =
        s.ValidUrl + s.Duplicates + (unresolvedHrefs root (doc.Find selector)).length ∧
      (unresolvedHrefs root (doc.Find selector) = [] →
        s.WithHref = s.ValidUrl + s.Duplicates) := by
  obtain ⟨root, doc, h0, hp, hf⟩ := FetchAndWriteHrefAttrs_stats env rootUrl selector w s h
  obtain ⟨s', hs, -, -, -, -, hw, -, hd⟩ := run_spec env rootUrl selector w root doc h0 hp hf
  rw [h] at hs
  cases hs
  have hsum := resolved_add_unresolved root (doc.Find selector)
  have key : s.WithHref =
      s.ValidUrl + s.Duplicates + (unresolvedHrefs root (doc.Find selector)).length := by
    rw [hw, hd, ← hsum]
    push_cast
    ring
  refine ⟨root, doc, hp, hf, key, ?_⟩
  intro hnil
  rw [key, hnil]
  simp

/-- C1, amended, on the page `<a href="%zz"><a href="/x">` of `http://host/1`:
two hrefs, one valid URL, no duplicate, one href that does not resolve. -/
theorem withHref_eq_witness :
    (FetchAndWriteHrefAttrs (serverWith [anchor "%zz", anchor "/x"]) (gostr "http://host/1")
        (gostr "a") []).stats
      = some { Elements := 2, WithHref := 2, Duplicates := 0, ValidUrl := 1 } ∧
    ∃ root doc, Parse (gostr "http://host/1") = .ok root ∧
      fetchGoqueryUrl (serverWith [anchor "%zz", anchor "/x"]) (gostr "http://host/1")
        = .ok doc ∧
      (2 : Int) = 1 + 0 + (unresolvedHrefs root (doc.Find (gostr "a"))).length ∧
      (unresolvedHrefs root (doc.Find (gostr "a")) = [] → (2 : Int) = 1 + 0) :=
  ⟨by decide,
    withHref_eq (serverWith [anchor "%zz", anchor "/x"]) (gostr "http://host/1") (gostr "a") []
      { Elements := 2, WithHref := 2, Duplicates := 0, ValidUrl := 1 } (by decide)⟩

/-- C10: when `FetchAndWriteHrefAttrs` returns stats, the four counters are
non-negative, `Elements >= WithHref >= ValidUrl + Duplicates`, and `Elements`
is the number of elements the selector matches. -/
theorem counters_ordered (env : Env) (rootUrl selector : GoString) (w : Writer) (s : Stats)
    (h : (FetchAndWriteHrefAttrs env rootUrl selector w).stats = some s) :
    0 ≤ s.Elements ∧ 0 ≤ s.WithHref ∧ 0 ≤ s.Duplicates ∧ 0 ≤ s.ValidUrl ∧
      s.Elements ≥ s.WithHref ∧ s.WithHref ≥ s.ValidUrl + s.Duplicates ∧
      ∃ doc, fetchGoqueryUrl env rootUrl = .ok doc ∧
        s.Elements = (doc.Find selector).length := by
  obtain ⟨root, doc, h0, hp, hf⟩ := FetchAndWriteHrefAttrs_stats env rootUrl selector w s h
  obtain ⟨s', hs, -, -, -, he, hw, hv, hd⟩ := run_spec env rootUrl selector w root doc h0 hp hf
  rw [h] at hs
  cases hs
  have h1 := hrefs_length_le (doc.Find selector)
  have h2 := resolved_add_unresolved root (doc.Find selector)
  have h3 := firstOccurrences_length_le rootUrl (resolvedHrefs root (doc.Find selector)) []
  refine ⟨?_, ?_, ?_, ?_, ?_, ?_, doc, hf, he⟩
  · rw [he]; exact Int.natCast_nonneg _
  · rw [hw]; exact Int.natCast_nonneg _
  · have : s.Duplicates = ((resolvedHrefs root (doc.Find selector)).length : Int) - s.ValidUrl := by
      rw [← hd]; ring
    rw [this, hv]
    have : ((firstOccurrences rootUrl [] (resolvedHrefs root (doc.Find selector))).length : Int)
        ≤ ((resolvedHrefs root (doc.Find selector)).length : Int) := by exact_mod_cast h3
    linarith
  · rw [hv]; exact Int.natCast_nonneg _
  · rw [he, hw]
    exact_mod_cast h1
  · rw [hd, hw]
    have : (resolvedHrefs root (doc.Find selector)).length ≤ (hrefs (doc.Find selector)).length := by
      omega
    exact_mod_cast this

/-- C10 on the page of `extract_test.go`. -/
theorem counters_ordered_witness :
    (FetchAndWriteHrefAttrs (serverWith testAnchors) (gostr "http://host/1") (gostr "a") []).stats
      = some { Elements := 4, WithHref := 3, Duplicates := 1, ValidUrl := 2 } ∧
    ((0 : Int) ≤ 4 ∧ (0 : Int) ≤ 3 ∧ (0 : Int) ≤ 1 ∧ (0 : Int) ≤ 2 ∧
      (4 : Int) ≥ 3 ∧ (3 : Int) ≥ 2 + 1 ∧
      ∃ doc, fetchGoqueryUrl (serverWith testAnchors) (gostr "http://host/1") = .ok doc ∧
        (4 : Int) = (doc.Find (gostr "a")).length) :=
  ⟨by decide,
    counters_ordered (serverWith testAnchors) (gostr "http://host/1") (gostr "a") []
      { Elements := 4, WithHref := 3, Duplicates := 1, ValidUrl := 2 } (by decide)⟩

/-- C8: called with the empty string as `rootUrl`, `FetchAndWriteHrefAttrs`
returns a nil `Stats` and the error "url is required", starts no fetch, and
writes nothing to `w`, whatever the selector, the writer and the network. -/
theorem empty_url_rejected (env : Env) (selector : GoString) (w : Writer) :
    (FetchAndWriteHrefAttrs env (gostr "") selector w).stats = none ∧
      (FetchAndWriteHrefAttrs env (gostr "") selector w).err =
        some (.errorString "url is required") ∧
      (FetchAndWriteHrefAttrs env (gostr "") selector w).fetched = [] ∧
      (FetchAndWriteHrefAttrs env (gostr "") selector w).w = w :=
  ⟨rfl, rfl, rfl, rfl⟩

/-! ## Elements whose href does not resolve -/

/-- C9: a matched element whose href fails to resolve against the source URL
only increments `WithHref`: the loop body leaves `ValidUrl`, `Duplicates`, the
map `added` and the writer as they were, the call returns no error, and the
stats and the writes of the whole call are those of the same call on the
element list without that element, with `Elements` and `WithHref` one
higher. -/
theorem malformed_href_skipped (env env2 : Env) (rootUrl selector : GoString) (w : Writer)
    (root : URL) (doc doc2 : Document) (pre post : List Node) (el : Node) (href : GoString)
    (e : GoError) (h0 : rootUrl ≠ []) (hp : Parse rootUrl = .ok root)
    (hf : fetchGoqueryUrl env rootUrl = .ok doc) (hd : doc.Find selector = pre ++ el :: post)
    (hf2 : fetchGoqueryUrl env2 rootUrl = .ok doc2) (hd2 : doc2.Find selector = pre ++ post)
    (ha : el.AttrValue (gostr "href") = some href) (hr : root.Parse href = .error e) :
    (∀ st : LoopState, loopBody root rootUrl st el =
        { st with stats := { st.stats with WithHref := st.stats.WithHref + 1 } }) ∧
      (FetchAndWriteHrefAttrs env rootUrl selector w).err = none ∧
      (FetchAndWriteHrefAttrs env rootUrl selector w).w =
        (FetchAndWriteHrefAttrs env2 rootUrl selector w).w ∧
      (FetchAndWriteHrefAttrs env rootUrl selector w).stats =
        (FetchAndWriteHrefAttrs env2 rootUrl selector w).stats.map (Stats.bump 1 1 0) := by
  have hres : resolveHref root href = none := by
    unfold resolveHref
    rw [hr]
  have hbody : ∀ st : LoopState, loopBody root rootUrl st el = st.bump 0 1 0 := by
    intro st
    rw [loopBody_unresolved root rootUrl st el href ha hres]
    simp [LoopState.bump]
  rw [FetchAndWriteHrefAttrs_ok env rootUrl selector w root doc h0 hp hf,
    FetchAndWriteHrefAttrs_ok env2 rootUrl selector w root doc2 h0 hp hf2, hd, hd2]
  have hinit : (⟨{ Elements := ((pre ++ el :: post).length : Int) }, [], w⟩ : LoopState) =
      LoopState.bump 1 0 0 ⟨{ Elements := ((pre ++ post).length : Int) }, [], w⟩ := by
    simp [LoopState.bump]
    ring
  rw [hinit, loop_bump, loop_skip root rootUrl 1 0 el hbody]
  refine ⟨fun st => loopBody_unresolved root rootUrl st el href ha hres, rfl, rfl, ?_⟩
  simp [LoopState.bump, Stats.bump]

/-- C9 at the source URL `http://host/1` and the anchors `/a`, `%zz`, `/b`. -/
theorem malformed_href_skipped_witness :
    gostr "http://host/1" ≠ [] ∧
    (∀ st : LoopState,
      loopBody hostRoot
          (gostr "http://host/1") st (anchor "%zz") =
        { st with stats := { st.stats with WithHref := st.stats.WithHref + 1 } }) ∧
      (FetchAndWriteHrefAttrs (serverWith [anchor "/a", anchor "%zz", anchor "/b"])
        (gostr "http://host/1") (gostr "a") []).err = none ∧
      (FetchAndWriteHrefAttrs (serverWith [anchor "/a", anchor "%zz", anchor "/b"])
        (gostr "http://host/1") (gostr "a") []).w =
        (FetchAndWriteHrefAttrs (serverWith [anchor "/a", anchor "/b"])
          (gostr "http://host/1") (gostr "a") []).w ∧
      (FetchAndWriteHrefAttrs (serverWith [anchor "/a", anchor "%zz", anchor "/b"])
        (gostr "http://host/1") (gostr "a") []).stats =
        (FetchAndWriteHrefAttrs (serverWith [anchor "/a", anchor "/b"])
          (gostr "http://host/1") (gostr "a") []).stats.map (Stats.bump 1 1 0) :=
  ⟨by decide,
    malformed_href_skipped (serverWith [anchor "/a", anchor "%zz", anchor "/b"])
      (serverWith [anchor "/a", anchor "/b"]) (gostr "http://host/1") (gostr "a") []
      hostRoot
      (pageOf [anchor "/a", anchor "%zz", anchor "/b"])
      (pageOf [anchor "/a", anchor "/b"])
      [anchor "/a"] [anchor "/b"] (anchor "%zz") (gostr "%zz") (.urlError "parse" (gostr "%zz")
        (.EscapeError (gostr "%zz")))
      (by decide) rfl rfl rfl rfl rfl (by decide) rfl⟩

/-! ## The lines written -/

/-- C2: whatever the source URL and the matched elements, the lines that
`FetchAndWriteHrefAttrs` writes to `w` are pairwise distinct as strings and
none of them is the string `rootUrl`. -/
theorem lines_distinct (env : Env) (rootUrl selector : GoString) (w : Writer) :
    ∃ lines : List GoString,
      (FetchAndWriteHrefAttrs env rootUrl selector w).w = w ++ lines.map line ∧
      lines.Nodup ∧ rootUrl ∉ lines := by
  cases hs : (FetchAndWriteHrefAttrs env rootUrl selector w).stats with
  | none =>
    exact ⟨[], by simp [FetchAndWriteHrefAttrs_none env rootUrl selector w hs], by simp, by simp⟩
  | some s =>
    obtain ⟨root, doc, h0, hp, hf⟩ := FetchAndWriteHrefAttrs_stats env rootUrl selector w s hs
    obtain ⟨s', -, -, -, hw, -⟩ := run_spec env rootUrl selector w root doc h0 hp hf
    refine ⟨_, hw, firstOccurrences_nodup rootUrl _ _, ?_⟩
    intro hm
    exact ((firstOccurrences_mem rootUrl _ _ _).1 hm).2.1 rfl

/-- C5: the byte stream written to `w` is the concatenation, in element
order, of `s` followed by a newline for each element whose href exists and
resolves to the fragment-stripped string `s`, where `s` differs from `rootUrl`
and no earlier element produced the same `s` (the strings kept are those at
the positions of the resolved hrefs that differ from `rootUrl` and from every
earlier resolved href). -/
theorem output_first_occurrences (env : Env) (rootUrl selector : GoString) (w : Writer)
    (root : URL) (doc : Document) (h0 : rootUrl ≠ []) (hp : Parse rootUrl = .ok root)
    (hf : fetchGoqueryUrl env rootUrl = .ok doc) :
    (FetchAndWriteHrefAttrs env rootUrl selector w).w =
        w ++ (firstOccurrences rootUrl [] (resolvedHrefs root (doc.Find selector))).map
          (fun s => s ++ gostr "\n") ∧
      (FetchAndWriteHrefAttrs env rootUrl selector w).w.flatten =
        w.flatten ++ ((firstOccurrences rootUrl [] (resolvedHrefs root (doc.Find selector))).map
          (fun s => s ++ gostr "\n")).flatten ∧
      firstOccurrences rootUrl [] (resolvedHrefs root (doc.Find selector)) =
        (List.range (resolvedHrefs root (doc.Find selector)).length).filterMap (fun i =>
          ((resolvedHrefs root (doc.Find selector))[i]?).bind (fun s =>
            if s ≠ rootUrl ∧ s ∉ (resolvedHrefs root (doc.Find selector)).take i then some s
            else none)) := by
  obtain ⟨s', -, -, -, hw, -⟩ := run_spec env rootUrl selector w root doc h0 hp hf
  have hw2 : (FetchAndWriteHrefAttrs env rootUrl selector w).w =
      w ++ (firstOccurrences rootUrl [] (resolvedHrefs root (doc.Find selector))).map
        (fun s => s ++ gostr "\n") := hw
  refine ⟨hw2, ?_, ?_⟩
  · rw [hw2, List.flatten_append]
  · rw [firstOccurrences_indexed]
    simp

/-- C5 at the source URL `http://host/1` and the anchors `/b`, `#x`, `/a`,
`/b#y`, `a`: the lines are those of `/b` and `/a`. -/
theorem output_first_occurrences_witness :
    gostr "http://host/1" ≠ [] ∧
    (FetchAndWriteHrefAttrs (serverWith sampleAnchors) (gostr "http://host/1") (gostr "a") []).w =
      [gostr "http://host/b\n", gostr "http://host/a\n"] ∧
    ((FetchAndWriteHrefAttrs (serverWith sampleAnchors) (gostr "http://host/1") (gostr "a")
        []).w =
        [] ++ (firstOccurrences (gostr "http://host/1") []
          (resolvedHrefs hostRoot ((pageOf sampleAnchors).Find (gostr "a")))).map
          (fun s => s ++ gostr "\n") ∧
      (FetchAndWriteHrefAttrs (serverWith sampleAnchors) (gostr "http://host/1") (gostr "a")
        []).w.flatten =
        List.flatten [] ++ ((firstOccurrences (gostr "http://host/1") []
          (resolvedHrefs hostRoot ((pageOf sampleAnchors).Find (gostr "a")))).map
          (fun s => s ++ gostr "\n")).flatten ∧
      firstOccurrences (gostr "http://host/1") []
          (resolvedHrefs hostRoot ((pageOf sampleAnchors).Find (gostr "a"))) =
        (List.range (resolvedHrefs hostRoot ((pageOf sampleAnchors).Find (gostr "a"))).length
          ).filterMap (fun i =>
          ((resolvedHrefs hostRoot ((pageOf sampleAnchors).Find (gostr "a")))[i]?).bind (fun s =>
            if s ≠ gostr "http://host/1" ∧
                s ∉ (resolvedHrefs hostRoot ((pageOf sampleAnchors).Find (gostr "a"))).take i
            then some s else none))) :=
  ⟨by decide, by decide,
    output_first_occurrences (serverWith sampleAnchors) (gostr "http://host/1") (gostr "a") []
      hostRoot (pageOf sampleAnchors) (by decide) rfl rfl⟩

/-! ## Fragment-only hrefs -/

theorem Parse_empty : Parse [] = .ok {} := rfl

theorem Cut_hash (frag : GoString) : Cut (ch '#' :: frag) (ch '#') = ([], frag, true) := by
  simp [Cut]

/-- Parsing a fragment-only reference yields a URL that has at most the
fragment fields set. -/
theorem Parse_fragment_only (frag : GoString) (ref : URL)
    (h : Parse (ch '#' :: frag) = .ok ref) :
    ∃ f rf, ref = { Fragment := f, RawFragment := rf } := by
  unfold Parse at h
  rw [Cut_hash] at h
  have hparse : parse [] false = .ok {} := rfl
  simp only [hparse] at h
  by_cases hf : frag = []
  · subst hf
    simp only [beq_self_eq_true, if_true, Except.ok.injEq] at h
    exact ⟨[], [], h.symm⟩
  · have hf2 : (frag == []) = false := by simpa using hf
    simp only [hf2] at h
    unfold URL.setFragment at h
    cases hu : unescape frag encodeFragment with
    | error e => simp [hu, bind, Except.bind] at h
    | ok fr =>
      simp only [hu, bind, Except.bind, pure, Except.pure] at h
      by_cases hc : (frag == escape fr encodeFragment) = true
      · simp only [hc, if_true] at h
        simp only [Bool.false_eq_true, if_false, Except.ok.injEq] at h
        exact ⟨fr, [], h.symm⟩
      · simp only [hc] at h
        simp only [Bool.false_eq_true, if_false, Except.ok.injEq] at h
        exact ⟨fr, frag, h.symm⟩

/-- Setting the path of a URL does not look at its fragment fields. -/
theorem setPathIgnoringError_fragment (u : URL) (p a c : GoString) :
    { (u.setPathIgnoringError p) with Fragment := a, RawFragment := c } =
      URL.setPathIgnoringError { u with Fragment := a, RawFragment := c } p := by
  unfold URL.setPathIgnoringError URL.setPath
  cases unescape p encodePath with
  | error e => rfl
  | ok path =>
    simp only [bind, Except.bind, pure, Except.pure]
    by_cases hc : (p == escape path encodePath) = true
    · simp only [hc, if_true]
    · simp only [hc]
      rfl

/-- The serialisation of a URL with an empty `Fragment` does not look at its
`RawFragment`. -/
theorem String_rawFragment (u : URL) (c : GoString) :
    URL.String { u with Fragment := [] } = URL.String { u with Fragment := [], RawFragment := c } := by
  rfl

/-- Resolving a reference that has only a fragment gives, up to the fragment
fields, the URL that the empty reference resolves to. -/
theorem ResolveReference_fragment_only (root : URL) (f rf : GoString) :
    { (root.ResolveReference { Fragment := f, RawFragment := rf }) with
        Fragment := [], RawFragment := [] } =
      { (root.ResolveReference {}) with Fragment := [], RawFragment := [] } := by
  unfold URL.ResolveReference
  have hep : ∀ a c : GoString, URL.EscapedPath { Fragment := a, RawFragment := c } = [] := by
    intro a c; rfl
  simp only [hep]
  by_cases ho : root.Opaque = []
  · by_cases hf : f = []
    · simp [ho, hf, setPathIgnoringError_fragment]
    · simp [ho, hf, setPathIgnoringError_fragment]
  · by_cases hf : f = []
    · simp [ho, hf]
    · simp [ho, hf]

/-- A fragment-only href that resolves yields the same fragment-stripped
string as the empty reference. -/
theorem resolveHref_fragment_only (root : URL) (frag : GoString)
    (h : resolveHref root (ch '#' :: frag) ≠ none) :
    resolveHref root (ch '#' :: frag) = resolveHref root [] := by
  unfold resolveHref URL.Parse at h ⊢
  rw [Parse_empty]
  cases hp : Parse (ch '#' :: frag) with
  | error e => simp [hp] at h
  | ok ref =>
    obtain ⟨f, rf, hr⟩ := Parse_fragment_only frag ref hp
    subst hr
    simp only
    rw [String_rawFragment _ [], String_rawFragment (root.ResolveReference {}) []]
    have := ResolveReference_fragment_only root f rf
    simp only at this
    rw [this]

/-- C3, as stated, fails. With the source URL `http://host/1#top` the href
`#x` resolves to `http://host/1`, which is not the string `rootUrl`, so the
element is counted in `ValidUrl` and a line is written for it; the same
happens with the source URLs `http://host/1?` and `http://host/a/../1`. With
the source URL `http://host/1` the href `#%zz` does not resolve, so the
element is counted in neither `Duplicates` nor `ValidUrl`. -/
theorem fragment_only_counterexample :
    ((FetchAndWriteHrefAttrs (serverWith [anchor "#x"]) (gostr "http://host/1#top") (gostr "a")
          []).err = none ∧
      (FetchAndWriteHrefAttrs (serverWith [anchor "#x"]) (gostr "http://host/1#top") (gostr "a")
          []).stats = some { Elements := 1, WithHref := 1, Duplicates := 0, ValidUrl := 1 } ∧
      (FetchAndWriteHrefAttrs (serverWith [anchor "#x"]) (gostr "http://host/1#top") (gostr "a")
          []).w = [gostr "http://host/1\n"]) ∧
    ((FetchAndWriteHrefAttrs (serverWith [anchor "#%zz"]) (gostr "http://host/1") (gostr "a")
          []).err = none ∧
      (FetchAndWriteHrefAttrs (serverWith [anchor "#%zz"]) (gostr "http://host/1") (gostr "a")
          []).stats = some { Elements := 1, WithHref := 1, Duplicates := 0, ValidUrl := 0 }) ∧
    ((FetchAndWriteHrefAttrs (serverWith [anchor "#x"]) (gostr "http://host/1?") (gostr "a")
          []).stats = some { Elements := 1, WithHref := 1, Duplicates := 0, ValidUrl := 1 } ∧
      (FetchAndWriteHrefAttrs (serverWith [anchor "#x"]) (gostr "http://host/1?") (gostr "a")
          []).w = [gostr "http://host/1\n"]) ∧
    ((FetchAndWriteHrefAttrs (serverWith [anchor "#x"]) (gostr "http://host/a/../1") (gostr "a")
          []).stats = some { Elements := 1, WithHref := 1, Duplicates := 0, ValidUrl := 1 } ∧
      (FetchAndWriteHrefAttrs (serverWith [anchor "#x"]) (gostr "http://host/a/../1") (gostr "a")
          []).w = [gostr "http://host/1\n"]) := by
  decide

/-! ## The scenario of `extract_test.go` -/

/-- C6: for the source URL `http://host/1` and a page on which the selector
`a` matches an anchor without href and anchors with the hrefs `#bad`,
`/rel-endpoint` and `http://youtube.com/external-link`, the call returns no
error and `Stats{Elements: 4, WithHref: 3, ValidUrl: 2, Duplicates: 1}` and
writes the lines `http://host/rel-endpoint` and
`http://youtube.com/external-link` in that order (likewise for a server
address such as `http://127.0.0.1:8080/1`). In general an element without href
leaves everything but `Elements` alone, an href that resolves to the source
URL counts as a duplicate, an href that resolves to a string that is neither
the source URL nor in `added` counts as valid, and `ValidUrl` is the number of
distinct resolved strings other than the source URL. -/
theorem test_scenario (env : Env) (w : Writer) (doc : Document)
    (hf : fetchGoqueryUrl env (gostr "http://host/1") = .ok doc)
    (hd : doc.Find (gostr "a") = testAnchors) :
    ((FetchAndWriteHrefAttrs env (gostr "http://host/1") (gostr "a") w).err = none ∧
      (FetchAndWriteHrefAttrs env (gostr "http://host/1") (gostr "a") w).stats =
        some { Elements := 4, WithHref := 3, ValidUrl := 2, Duplicates := 1 } ∧
      (FetchAndWriteHrefAttrs env (gostr "http://host/1") (gostr "a") w).w =
        w ++ [gostr "http://host/rel-endpoint\n", gostr "http://youtube.com/external-link\n"]) ∧
    ((FetchAndWriteHrefAttrs (serverWith testAnchors) (gostr "http://127.0.0.1:8080/1")
        (gostr "a") []).stats =
        some { Elements := 4, WithHref := 3, ValidUrl := 2, Duplicates := 1 } ∧
      (FetchAndWriteHrefAttrs (serverWith testAnchors) (gostr "http://127.0.0.1:8080/1")
        (gostr "a") []).w =
        [gostr "http://127.0.0.1:8080/rel-endpoint\n",
          gostr "http://youtube.com/external-link\n"]) ∧
    (∀ (root : URL) (rootUrl : GoString) (st : LoopState) (el : Node),
      el.AttrValue (gostr "href") = none → loopBody root rootUrl st el = st) ∧
    (∀ (root : URL) (rootUrl : GoString) (st : LoopState) (el : Node) (href : GoString),
      el.AttrValue (gostr "href") = some href → resolveHref root href = some rootUrl →
      loopBody root rootUrl st el =
        { st with stats := { st.stats with WithHref := st.stats.WithHref + 1,
                                           Duplicates := st.stats.Duplicates + 1 } }) ∧
    (∀ (root : URL) (rootUrl : GoString) (st : LoopState) (el : Node) (href s : GoString),
      el.AttrValue (gostr "href") = some href → resolveHref root href = some s →
      s ≠ rootUrl → st.added.get s = false →
      loopBody root rootUrl st el =
        { stats := { st.stats with WithHref := st.stats.WithHref + 1,
                                   ValidUrl := st.stats.ValidUrl + 1 }
          added := st.added.set s true
          w := st.w ++ [s ++ gostr "\n"] }) ∧
    (∀ (env : Env) (rootUrl selector : GoString) (w : Writer) (root : URL) (doc : Document),
      rootUrl ≠ [] → Parse rootUrl = .ok root → fetchGoqueryUrl env rootUrl = .ok doc →
      ∃ s : Stats, (FetchAndWriteHrefAttrs env rootUrl selector w).stats = some s ∧
        s.Elements = (doc.Find selector).length ∧
        s.WithHref = (hrefs (doc.Find selector)).length ∧
        s.ValidUrl = (((resolvedHrefs root (doc.Find selector)).filter
          (fun r => r ≠ rootUrl)).dedup).length ∧
        s.ValidUrl + s.Duplicates = (resolvedHrefs root (doc.Find selector)).length) := by
  refine ⟨?_, by decide, loopBody_noHref, ?_, ?_, ?_⟩
  · have hp : Parse (gostr "http://host/1") =
        .ok hostRoot := rfl
    obtain ⟨s, hs, he, -, hw, h1, h2, h3, h4⟩ :=
      run_spec env (gostr "http://host/1") (gostr "a") w _ doc (by decide) hp hf
    rw [hd] at hw h1 h2 h3 h4
    have hfo : firstOccurrences (gostr "http://host/1") [] (resolvedHrefs hostRoot testAnchors) =
        [gostr "http://host/rel-endpoint", gostr "http://youtube.com/external-link"] := by
      decide
    have hres : (resolvedHrefs hostRoot testAnchors).length = 3 := by decide
    have hh : (hrefs testAnchors).length = 3 := by decide
    have hl : testAnchors.length = 4 := by decide
    rw [hfo] at hw h3
    rw [hres] at h4
    rw [hh] at h2
    rw [hl] at h1
    refine ⟨he, ?_, ?_⟩
    · rw [hs]
      have e1 : s.Elements = 4 := by simpa using h1
      have e2 : s.WithHref = 3 := by simpa using h2
      have e3 : s.ValidUrl = 2 := by simpa using h3
      have e4 : s.Duplicates = 1 := by
        rw [e3] at h4
        have : (2 : Int) + s.Duplicates = 3 := by simpa using h4
        linarith
      cases s
      simp only at e1 e2 e3 e4
      subst e1 e2 e3 e4
      rfl
    · rw [hw]
      rfl
  · intro root rootUrl st el href ha hr
    exact loopBody_duplicate root rootUrl st el href rootUrl ha hr (Or.inl rfl)
  · intro root rootUrl st el href s ha hr hs hg
    exact loopBody_new root rootUrl st el href s ha hr hs hg
  · intro env rootUrl selector w root doc h0 hp hf
    obtain ⟨s, hs, -, -, -, h1, h2, h3, h4⟩ := run_spec env rootUrl selector w root doc h0 hp hf
    refine ⟨s, hs, h1, h2, ?_, h4⟩
    rw [h3, firstOccurrences_length]

/-- C6 on the server that serves the page of `extract_test.go`. -/
theorem test_scenario_witness :
    ((FetchAndWriteHrefAttrs (serverWith testAnchors) (gostr "http://host/1") (gostr "a")
        []).err = none ∧
      (FetchAndWriteHrefAttrs (serverWith testAnchors) (gostr "http://host/1") (gostr "a")
        []).stats = some { Elements := 4, WithHref := 3, ValidUrl := 2, Duplicates := 1 } ∧
      (FetchAndWriteHrefAttrs (serverWith testAnchors) (gostr "http://host/1") (gostr "a")
        []).w =
        [] ++ [gostr "http://host/rel-endpoint\n", gostr "http://youtube.com/external-link\n"]) :=
  (test_scenario (serverWith testAnchors) []
    (pageOf testAnchors) rfl rfl).1

/-! ## Bytes that never occur in a serialised URL without fragment -/

theorem shouldEscape_hard (x : Nat) (hx : x = 35 ∨ x = 10) (mode : encoding) :
    shouldEscape x mode = true := by
  rcases hx with rfl | rfl <;> cases mode <;> decide

theorem upperhex_ge (i : Nat) : 48 ≤ upperhex i := by
  unfold upperhex
  have h0 : ch '0' = 48 := by decide
  have hA : ch 'A' = 65 := by decide
  rw [h0, hA]
  split <;> omega

theorem escape_free (x : Nat) (hx : x = 35 ∨ x = 10) (s : GoString) (mode : encoding) :
    x ∉ escape s mode := by
  unfold escape
  split
  · rename_i hall
    intro hm
    have := List.all_eq_true.1 hall x hm
    rw [shouldEscape_hard x hx mode] at this
    simp at this
  · intro hm
    rw [List.mem_flatMap] at hm
    obtain ⟨a, -, ha⟩ := hm
    split at ha
    · have : x = ch '+' := by simpa using ha
      rcases hx with rfl | rfl <;> exact absurd this (by decide)
    · split at ha
      · simp only [List.mem_cons, List.mem_singleton, List.not_mem_nil, or_false] at ha
        have h1 := upperhex_ge (a / 16)
        have h2 := upperhex_ge (a % 16)
        have h3 : ch '%' = 37 := by decide
        rw [h3] at ha
        rcases hx with rfl | rfl <;> omega
      · rename_i hne
        have : x = a := by simpa using ha
        subst this
        rw [shouldEscape_hard x hx mode] at hne
        exact hne rfl

theorem validEncoded_free (x : Nat) (hx : x = 35 ∨ x = 10) (s : GoString) (mode : encoding)
    (h : validEncoded s mode = true) : x ∉ s := by
  intro hm
  unfold validEncoded at h
  have := List.all_eq_true.1 h x hm
  rw [shouldEscape_hard x hx mode] at this
  rcases hx with rfl | rfl <;> revert this <;> decide

theorem EscapedPath_free (x : Nat) (hx : x = 35 ∨ x = 10) (u : URL) : x ∉ u.EscapedPath := by
  unfold URL.EscapedPath
  split
  · rename_i h
    simp only [Bool.and_eq_true] at h
    exact validEncoded_free x hx _ _ h.1.2
  · split
    · rcases hx with rfl | rfl <;> decide
    · exact escape_free x hx _ _

theorem Userinfo_String_free (x : Nat) (hx : x = 35 ∨ x = 10) (ui : Userinfo) : x ∉ ui.String := by
  unfold Userinfo.String
  have h1 := escape_free x hx ui.username encodeUserPassword
  have h2 := escape_free x hx ui.password encodeUserPassword
  have h3 : x ∉ gostr ":" := by rcases hx with rfl | rfl <;> decide
  split <;> simp [List.mem_append, h1, h2, h3]

theorem not_mem_ite (x : Nat) (c : Prop) [Decidable c] (s t : GoString) (hs : x ∉ s)
    (ht : x ∉ t) : x ∉ (if c then s else t) := by
  split <;> assumption

theorem not_mem_append (x : Nat) (s t : GoString) (hs : x ∉ s) (ht : x ∉ t) : x ∉ s ++ t := by
  simp [List.mem_append, hs, ht]

/-- A byte among `#` and newline does not occur in the serialisation of a URL
with an empty fragment unless it occurs in the scheme, the opaque part or the
raw query. -/
theorem String_free (x : Nat) (hx : x = 35 ∨ x = 10) (u : URL) (hs : x ∉ u.Scheme)
    (ho : x ∉ u.Opaque) (hq : x ∉ u.RawQuery) (hf : u.Fragment = []) : x ∉ u.String := by
  have h1 := EscapedPath_free x hx u
  have h2 := escape_free x hx u.Host encodeHost
  have h3 : ∀ ui, x ∉ Userinfo.String ui := Userinfo_String_free x hx
  have c1 : x ∉ gostr ":" := by rcases hx with rfl | rfl <;> decide
  have c2 : x ∉ gostr "//" := by rcases hx with rfl | rfl <;> decide
  have c3 : x ∉ gostr "@" := by rcases hx with rfl | rfl <;> decide
  have c4 : x ∉ gostr "/" := by rcases hx with rfl | rfl <;> decide
  have c5 : x ∉ gostr "./" := by rcases hx with rfl | rfl <;> decide
  have c6 : x ∉ gostr "?" := by rcases hx with rfl | rfl <;> decide
  have c7 : x ∉ ([] : GoString) := by simp
  unfold URL.String
  have hfrag : (u.Fragment != []) = false := by rw [hf]; rfl
  rw [hfrag]
  rw [if_neg (by simp)]
  cases hu : u.User with
  | none =>
    dsimp only
    repeat' first
      | assumption
      | apply not_mem_ite
      | apply not_mem_append
  | some ui =>
    have h4 := h3 ui
    dsimp only
    repeat' first
      | assumption
      | apply not_mem_ite
      | apply not_mem_append

/-! ## Where the raw parts of a parsed URL come from -/

theorem Cut_fst_subset (y : Nat) : ∀ (s : GoString) (c : Nat), c ∈ (Cut s y).1 → c ∈ s := by
  intro s
  induction s with
  | nil => intro c h; simp [Cut] at h
  | cons a rest ih =>
    intro c h
    unfold Cut at h
    split at h
    · simp at h
    · simp only [List.mem_cons] at h ⊢
      rcases h with h | h
      · exact Or.inl h
      · exact Or.inr (ih c h)

theorem Cut_snd_subset (y : Nat) : ∀ (s : GoString) (c : Nat), c ∈ (Cut s y).2.1 → c ∈ s := by
  intro s
  induction s with
  | nil => intro c h; simp [Cut] at h
  | cons a rest ih =>
    intro c h
    unfold Cut at h
    split at h
    · simp only [List.mem_cons]
      exact Or.inr h
    · simp only [List.mem_cons]
      exact Or.inr (ih c h)

theorem Cut_fst_free (y : Nat) : ∀ s : GoString, y ∉ (Cut s y).1 := by
  intro s
  induction s with
  | nil => simp [Cut]
  | cons a rest ih =>
    unfold Cut
    split
    · simp
    · rename_i hne
      simp only [List.mem_cons, not_or]
      refine ⟨?_, ih⟩
      intro h
      subst h
      simp at hne

theorem getSchemeLoop_subset (raw : GoString) :
    ∀ (l : GoString) (i : Nat) (sch rest : GoString), (∀ c ∈ l, c ∈ raw) →
      getSchemeLoop raw i l = .ok (sch, rest) →
      (∀ c ∈ sch, c ∈ raw) ∧ (∀ c ∈ rest, c ∈ raw) := by
  intro l
  induction l with
  | nil =>
    intro i sch rest _ h
    simp only [getSchemeLoop, Except.ok.injEq, Prod.mk.injEq] at h
    obtain ⟨h1, h2⟩ := h
    subst h1 h2
    exact ⟨by simp, fun c hc => hc⟩
  | cons a tl ih =>
    intro i sch rest hl h
    have htl : ∀ c ∈ tl, c ∈ raw := fun c hc => hl c (by simp [hc])
    unfold getSchemeLoop at h
    split at h
    · exact ih _ _ _ htl h
    · split at h
      · split at h
        · simp only [Except.ok.injEq, Prod.mk.injEq] at h
          obtain ⟨h1, h2⟩ := h
          subst h1 h2
          exact ⟨by simp, fun c hc => hc⟩
        · exact ih _ _ _ htl h
      · split at h
        · split at h
          · cases h
          · simp only [Except.ok.injEq, Prod.mk.injEq] at h
            obtain ⟨h1, h2⟩ := h
            subst h1 h2
            exact ⟨fun c hc => List.mem_of_mem_take hc, htl⟩
        · simp only [Except.ok.injEq, Prod.mk.injEq] at h
          obtain ⟨h1, h2⟩ := h
          subst h1 h2
          exact ⟨by simp, fun c hc => hc⟩

theorem ToLower_free (x : Nat) (hx : x = 35 ∨ x = 10) (s : GoString) (h : x ∉ s) :
    x ∉ ToLower s := by
  unfold ToLower
  intro hm
  rw [List.mem_map] at hm
  obtain ⟨a, ha, hax⟩ := hm
  have hA : ch 'A' = 65 := by decide
  have hZ : ch 'Z' = 90 := by decide
  rw [hA, hZ] at hax
  split at hax
  · rcases hx with rfl | rfl <;> omega
  · subst hax
    exact h ha

theorem setPath_fields (u v : URL) (p : GoString) (h : u.setPath p = .ok v) :
    v.Scheme = u.Scheme ∧ v.Opaque = u.Opaque ∧ v.RawQuery = u.RawQuery ∧
      v.Fragment = u.Fragment := by
  unfold URL.setPath at h
  cases hu : unescape p encodePath with
  | error e => simp [hu, bind, Except.bind] at h
  | ok path =>
    simp only [hu, bind, Except.bind, pure, Except.pure] at h
    split at h <;>
    · simp only [Except.ok.injEq] at h
      subst h
      exact ⟨rfl, rfl, rfl, rfl⟩

theorem setPathIgnoringError_fields (u : URL) (p : GoString) :
    (u.setPathIgnoringError p).Scheme = u.Scheme ∧ (u.setPathIgnoringError p).Opaque = u.Opaque ∧
      (u.setPathIgnoringError p).RawQuery = u.RawQuery ∧
      (u.setPathIgnoringError p).Fragment = u.Fragment := by
  unfold URL.setPathIgnoringError
  cases h : u.setPath p with
  | error e => exact ⟨rfl, rfl, rfl, rfl⟩
  | ok v => exact setPath_fields u v p h

theorem setFragment_fields (u v : URL) (f : GoString) (h : u.setFragment f = .ok v) :
    v.Scheme = u.Scheme ∧ v.Opaque = u.Opaque ∧ v.RawQuery = u.RawQuery := by
  unfold URL.setFragment at h
  cases hu : unescape f encodeFragment with
  | error e => simp [hu, bind, Except.bind] at h
  | ok frag =>
    simp only [hu, bind, Except.bind, pure, Except.pure] at h
    split at h <;>
    · simp only [Except.ok.injEq] at h
      subst h
      exact ⟨rfl, rfl, rfl⟩

theorem parse_noCTL (raw : GoString) (v : Bool) (u : URL) (h : parse raw v = .ok u) :
    stringContainsCTLByte raw = false := by
  unfold parse at h
  split at h
  · cases h
  · rename_i hc
    simpa using hc

theorem noCTL_free (s : GoString) (h : stringContainsCTLByte s = false) : 10 ∉ s := by
  intro hm
  unfold stringContainsCTLByte at h
  have h2 := List.any_eq_false.1 h 10 hm
  revert h2
  decide

theorem parse_eq (raw : GoString) (v : Bool) :
    parse raw v =
      if stringContainsCTLByte raw then
        .error (.errorString "net/url: invalid control character in URL")
      else if raw == [] && v then
        .error (.errorString "empty url")
      else if raw == gostr "*" then
        .ok { Path := gostr "*" }
      else
        match getScheme raw with
        | .error e => .error e
        | .ok (scheme, rest) =>
          parseHierStep v (parseQueryStep scheme rest).1 (parseQueryStep scheme rest).2 := by
  unfold parse
  split
  · rfl
  split
  · rfl
  split
  · rfl
  cases hg : getScheme raw with
  | error e => rfl
  | ok pr =>
    obtain ⟨scheme, rest⟩ := pr
    rfl

theorem parseQueryStep_free (x : Nat) (hx : x = 35 ∨ x = 10) (scheme rest : GoString)
    (hs : x ∉ scheme) (hr : x ∉ rest) :
    x ∉ (parseQueryStep scheme rest).1 ∧ x ∉ (parseQueryStep scheme rest).2.Scheme ∧
      x ∉ (parseQueryStep scheme rest).2.Opaque ∧ x ∉ (parseQueryStep scheme rest).2.RawQuery := by
  have hS := ToLower_free x hx scheme hs
  unfold parseQueryStep
  split
  · exact ⟨fun hm => hr (List.mem_of_mem_take hm), hS, by simp, by simp⟩
  · exact ⟨fun hm => hr (Cut_fst_subset _ _ _ hm), hS, by simp,
      fun hm => hr (Cut_snd_subset _ _ _ hm)⟩

theorem parseHierStep_free (x : Nat) (v : Bool) (rest : GoString) (url u : URL)
    (hr : x ∉ rest) (hs : x ∉ url.Scheme) (ho : x ∉ url.Opaque) (hq : x ∉ url.RawQuery)
    (h : parseHierStep v rest url = .ok u) :
    x ∉ u.Scheme ∧ x ∉ u.Opaque ∧ x ∉ u.RawQuery := by
  unfold parseHierStep at h
  split at h
  · simp only [pure, Except.pure, Except.ok.injEq] at h
    subst h
    exact ⟨hs, hr, hq⟩
  split at h
  · cases h
  split at h
  · cases h
  split at h
  · simp only [bind, Except.bind] at h
    split at h
    · cases h
    · rename_i pr hpa
      obtain ⟨h1, h2, h3, -⟩ := setPath_fields _ _ _ h
      simp only at h1 h2 h3
      rw [h1, h2, h3]
      exact ⟨hs, ho, hq⟩
  split at h
  · obtain ⟨h1, h2, h3, -⟩ := setPath_fields _ _ _ h
    simp only at h1 h2 h3
    rw [h1, h2, h3]
    exact ⟨hs, ho, hq⟩
  · obtain ⟨h1, h2, h3, -⟩ := setPath_fields _ _ _ h
    rw [h1, h2, h3]
    exact ⟨hs, ho, hq⟩

theorem parse_free (x : Nat) (hx : x = 35 ∨ x = 10) (raw : GoString) (v : Bool) (u : URL)
    (hraw : x ∉ raw) (h : parse raw v = .ok u) :
    x ∉ u.Scheme ∧ x ∉ u.Opaque ∧ x ∉ u.RawQuery := by
  rw [parse_eq] at h
  split at h
  · cases h
  split at h
  · cases h
  split at h
  · simp only [Except.ok.injEq] at h
    subst h
    simp
  split at h
  · cases h
  · rename_i scheme rest hg
    obtain ⟨hsch, hrest⟩ := getSchemeLoop_subset raw raw 0 scheme rest (fun c hc => hc) hg
    obtain ⟨a1, a2, a3, a4⟩ := parseQueryStep_free x hx scheme rest
      (fun hm => hraw (hsch x hm)) (fun hm => hraw (hrest x hm))
    exact parseHierStep_free x v _ _ u a1 a2 a3 a4 h

/-- The scheme, opaque part and raw query of a URL returned by `url.Parse`
contain neither `#` nor a newline. -/
theorem Parse_free (x : Nat) (hx : x = 35 ∨ x = 10) (raw : GoString) (u : URL)
    (h : Parse raw = .ok u) : x ∉ u.Scheme ∧ x ∉ u.Opaque ∧ x ∉ u.RawQuery := by
  unfold Parse at h
  cases hp : parse (Cut raw (ch '#')).1 false with
  | error e => simp [hp] at h
  | ok url =>
    have hfree : x ∉ (Cut raw (ch '#')).1 := by
      rcases hx with rfl | rfl
      · exact Cut_fst_free (ch '#') raw
      · exact noCTL_free _ (parse_noCTL _ _ _ hp)
    have hu := parse_free x hx _ _ _ hfree hp
    simp only [hp] at h
    split at h
    · simp only [Except.ok.injEq] at h
      subst h
      exact hu
    · cases hsf : url.setFragment (Cut raw (ch '#')).2.1 with
      | error e => simp [hsf] at h
      | ok w =>
        simp only [hsf, Except.ok.injEq] at h
        subst h
        obtain ⟨h1, h2, h3⟩ := setFragment_fields _ _ _ hsf
        rw [h1, h2, h3]
        exact hu

/-- The scheme, opaque part and raw query of a resolved reference are those
of the reference or of the base. -/
theorem ResolveReference_free (x : Nat) (u ref : URL)
    (hu : x ∉ u.Scheme ∧ x ∉ u.Opaque ∧ x ∉ u.RawQuery)
    (hr : x ∉ ref.Scheme ∧ x ∉ ref.Opaque ∧ x ∉ ref.RawQuery) :
    x ∉ (u.ResolveReference ref).Scheme ∧ x ∉ (u.ResolveReference ref).Opaque ∧
      x ∉ (u.ResolveReference ref).RawQuery := by
  obtain ⟨u1, u2, u3⟩ := hu
  obtain ⟨r1, r2, r3⟩ := hr
  unfold URL.ResolveReference
  dsimp only
  split_ifs <;>
    first
    | exact ⟨by assumption, by assumption, by assumption⟩
    | (obtain ⟨h1, h2, h3, -⟩ := setPathIgnoringError_fields _ _
       rw [h1, h2, h3]
       exact ⟨by assumption, by assumption, by assumption⟩)

/-- The string the loop body computes for an href contains neither `#` nor a
newline. -/
theorem resolveHref_free (x : Nat) (hx : x = 35 ∨ x = 10) (rootUrl href s : GoString)
    (root : URL) (hp : Parse rootUrl = .ok root) (h : resolveHref root href = some s) :
    x ∉ s := by
  unfold resolveHref URL.Parse at h
  cases hr : Parse href with
  | error e => simp [hr] at h
  | ok ref =>
    simp only [hr, Option.some.injEq] at h
    subst h
    obtain ⟨a1, a2, a3⟩ := ResolveReference_free x root ref (Parse_free x hx _ _ hp)
      (Parse_free x hx _ _ hr)
    exact String_free x hx _ a1 a2 a3 rfl

theorem mem_resolvedHrefs (root : URL) (elements : List Node) (s : GoString)
    (h : s ∈ resolvedHrefs root elements) :
    ∃ el ∈ elements, ∃ href abs, el.AttrValue (gostr "href") = some href ∧
      root.Parse href = .ok abs ∧ s = URL.String { abs with Fragment := [] } := by
  unfold resolvedHrefs hrefs at h
  rw [List.mem_filterMap] at h
  obtain ⟨href, hh, hr⟩ := h
  rw [List.mem_filterMap] at hh
  obtain ⟨el, hel, ha⟩ := hh
  unfold resolveHref at hr
  cases hp : root.Parse href with
  | error e => simp [hp] at hr
  | ok abs =>
    simp only [hp, Option.some.injEq] at hr
    exact ⟨el, hel, href, abs, ha, hp, hr.symm⟩

theorem count_newline_lines :
    ∀ lines : List GoString, (∀ l ∈ lines, newline ∉ l) →
      CountByte (lines.map line).flatten newline = lines.length := by
  intro lines
  induction lines with
  | nil => intro _; rfl
  | cons l rest ih =>
    intro h
    have h1 : newline ∉ l := h l (by simp)
    have h2 := ih (fun l hl => h l (by simp [hl]))
    unfold CountByte at h2 ⊢
    have hnl : gostr "\n" = [newline] := by decide
    simp only [List.map_cons, List.flatten_cons, List.count_append, line, hnl, h2,
      List.count_eq_zero.2 h1, List.length_cons]
    simp
    omega

/-! ## Fragments and line counts -/

/-- C4: every line that `FetchAndWriteHrefAttrs` writes to `w` is the
serialisation of the URL that an element's href resolves to after its
`Fragment` has been set to the empty string, followed by a newline, and it
contains no `#` at all. -/
theorem lines_without_fragment (env : Env) (rootUrl selector : GoString) (w : Writer) :
    ∃ lines : List GoString,
      (FetchAndWriteHrefAttrs env rootUrl selector w).w =
        w ++ lines.map (fun s => s ++ gostr "\n") ∧
      ∀ l ∈ lines, ch '#' ∉ l ∧
        ∃ root doc el href abs, Parse rootUrl = .ok root ∧
          fetchGoqueryUrl env rootUrl = .ok doc ∧ el ∈ doc.Find selector ∧
          el.AttrValue (gostr "href") = some href ∧ root.Parse href = .ok abs ∧
          URL.Fragment { abs with Fragment := [] } = [] ∧
          l = URL.String { abs with Fragment := [] } := by
  cases hs : (FetchAndWriteHrefAttrs env rootUrl selector w).stats with
  | none =>
    exact ⟨[], by simp [FetchAndWriteHrefAttrs_none env rootUrl selector w hs], by simp⟩
  | some s =>
    obtain ⟨root, doc, h0, hp, hf⟩ := FetchAndWriteHrefAttrs_stats env rootUrl selector w s hs
    obtain ⟨s', -, -, -, hw, -⟩ := run_spec env rootUrl selector w root doc h0 hp hf
    refine ⟨_, hw, ?_⟩
    intro l hl
    have hmem := ((firstOccurrences_mem rootUrl _ _ _).1 hl).1
    obtain ⟨el, hel, href, abs, ha, hr, hstr⟩ := mem_resolvedHrefs root _ l hmem
    have hres : resolveHref root href = some l := by
      unfold resolveHref
      rw [hr, hstr]
    refine ⟨?_, root, doc, el, href, abs, hp, hf, hel, ha, hr, rfl, hstr⟩
    exact resolveHref_free (ch '#') (Or.inl (by decide)) rootUrl href l root hp hres

/-- C7: when `FetchAndWriteHrefAttrs` returns stats, `ValidUrl` is the number
of lines written to `w`: the writes are pairwise distinct strings, each
followed by a newline and containing no other newline, so the bytes written
hold exactly `ValidUrl` newlines. -/
theorem validUrl_counts_lines (env : Env) (rootUrl selector : GoString) (w : Writer)
    (s : Stats) (h : (FetchAndWriteHrefAttrs env rootUrl selector w).stats = some s) :
    ∃ lines : List GoString,
      (FetchAndWriteHrefAttrs env rootUrl selector w).w =
        w ++ lines.map (fun l => l ++ gostr "\n") ∧
      s.ValidUrl = lines.length ∧ lines.Nodup ∧ (∀ l ∈ lines, newline ∉ l) ∧
      (CountByte (lines.map (fun l => l ++ gostr "\n")).flatten newline : Int) = s.ValidUrl := by
  obtain ⟨root, doc, h0, hp, hf⟩ := FetchAndWriteHrefAttrs_stats env rootUrl selector w s h
  obtain ⟨s', hs, -, -, hw, -, -, hv, -⟩ := run_spec env rootUrl selector w root doc h0 hp hf
  rw [h] at hs
  cases hs
  have hfree : ∀ l ∈ firstOccurrences rootUrl [] (resolvedHrefs root (doc.Find selector)),
      newline ∉ l := by
    intro l hl
    have hmem := ((firstOccurrences_mem rootUrl _ _ _).1 hl).1
    obtain ⟨el, hel, href, abs, ha, hr, hstr⟩ := mem_resolvedHrefs root _ l hmem
    have hres : resolveHref root href = some l := by
      unfold resolveHref
      rw [hr, hstr]
    exact resolveHref_free newline (Or.inr rfl) rootUrl href l root hp hres
  refine ⟨_, hw, hv, firstOccurrences_nodup rootUrl _ _, hfree, ?_⟩
  rw [hv]
  exact_mod_cast count_newline_lines _ hfree

/-- C7 on the page of `extract_test.go`: two valid URLs, two lines. -/
theorem validUrl_counts_lines_witness :
    (FetchAndWriteHrefAttrs (serverWith testAnchors) (gostr "http://host/1") (gostr "a") []).stats
      = some { Elements := 4, WithHref := 3, Duplicates := 1, ValidUrl := 2 } ∧
    ∃ lines : List GoString,
      (FetchAndWriteHrefAttrs (serverWith testAnchors) (gostr "http://host/1") (gostr "a") []).w =
        [] ++ lines.map (fun l => l ++ gostr "\n") ∧
      (2 : Int) = lines.length ∧ lines.Nodup ∧ (∀ l ∈ lines, newline ∉ l) ∧
      (CountByte (lines.map (fun l => l ++ gostr "\n")).flatten newline : Int) = 2 :=
  ⟨by decide,
    validUrl_counts_lines (serverWith testAnchors) (gostr "http://host/1") (gostr "a") []
      { Elements := 4, WithHref := 3, Duplicates := 1, ValidUrl := 2 } (by decide)⟩

/-! ## Escaping a path and reading it back -/

theorem hex_upperhex : ∀ i, i < 16 → ishex (upperhex i) = true ∧ unhex (upperhex i) = i := by
  decide

theorem shouldEscape_percent (mode : encoding) : shouldEscape (ch '%') mode = true := by
  cases mode <;> decide

theorem escapeAll_cons (c : Nat) (s : GoString) :
    escapeAll (c :: s) encodePath =
      (if shouldEscape c encodePath then [ch '%', upperhex (c / 16), upperhex (c % 16)]
        else [c]) ++ escapeAll s encodePath := by
  simp [escapeAll, List.flatMap_cons]

theorem escapeAll_of_all : ∀ s : GoString,
    s.all (fun c => !shouldEscape c encodePath) = true → escapeAll s encodePath = s := by
  intro s
  induction s with
  | nil => intro _; rfl
  | cons c rest ih =>
    intro h
    simp only [List.all_cons, Bool.and_eq_true] at h
    rw [escapeAll_cons, ih h.2]
    have : shouldEscape c encodePath = false := by simpa using h.1
    simp [this]

theorem escape_eq_escapeAll (s : GoString) : escape s encodePath = escapeAll s encodePath := by
  unfold escape
  split
  · rename_i h
    exact (escapeAll_of_all s h).symm
  · rfl

theorem unescapeCheck_cons_ne (mode : encoding) (c : Nat) (t : GoString) (n : Nat)
    (hp : Bool) (hne : (c == ch '%') = false) :
    unescapeCheck mode (c :: t) n hp =
      if c == ch '+' then unescapeCheck mode t n (mode == encodeQueryComponent)
      else if (mode == encodeHost || mode == encodeZone) && c < 0x80 &&
          shouldEscape c encodeHost then .error (.InvalidHostError [c])
      else unescapeCheck mode t n hp := by
  rcases t with _ | ⟨a, _ | ⟨d, r⟩⟩ <;> simp [unescapeCheck, hne]

theorem unescapeBuild_cons_ne (mode : encoding) (c : Nat) (t : GoString)
    (hne : (c == ch '%') = false) :
    unescapeBuild mode (c :: t) =
      if c == ch '+' then
        (if mode == encodeQueryComponent then ch ' ' else ch '+') :: unescapeBuild mode t
      else c :: unescapeBuild mode t := by
  rcases t with _ | ⟨a, _ | ⟨d, r⟩⟩ <;> simp [unescapeBuild, hne]

theorem unescapeCheck_escapeAll : ∀ (s : GoString) (n : Nat), (∀ c ∈ s, c < 256) →
    unescapeCheck encodePath (escapeAll s encodePath) n false =
      .ok (n + (s.filter (fun c => shouldEscape c encodePath)).length, false) := by
  intro s
  induction s with
  | nil => intro n _; rfl
  | cons c rest ih =>
    intro n hb
    have hc : c < 256 := hb c (by simp)
    have hrest : ∀ d ∈ rest, d < 256 := fun d hd => hb d (by simp [hd])
    rw [escapeAll_cons]
    by_cases he : shouldEscape c encodePath = true
    · have h1 := (hex_upperhex (c / 16) (by omega)).1
      have h2 := (hex_upperhex (c % 16) (by omega)).1
      simp only [he, if_true, List.cons_append, List.nil_append, List.filter_cons,
        List.length_cons]
      rw [unescapeCheck]
      simp only [beq_self_eq_true, if_true, h1, h2]
      simp only [Bool.not_true, Bool.or_self, Bool.false_eq_true, if_false]
      have e1 : (encodePath == encodeHost) = false := by decide
      have e2 : (encodePath == encodeZone) = false := by decide
      simp only [e1, e2, Bool.false_and, Bool.false_eq_true, if_false]
      rw [ih (n + 1) hrest]
      congr 2
      omega
    · have he2 : shouldEscape c encodePath = false := by simpa using he
      have hne : (c == ch '%') = false := by
        cases hq : (c == ch '%') with
        | false => rfl
        | true =>
          have : c = ch '%' := by simpa using hq
          rw [this, shouldEscape_percent] at he2
          cases he2
      simp only [he2, Bool.false_eq_true, if_false, List.cons_append, List.nil_append,
        List.filter_cons]
      rw [unescapeCheck_cons_ne _ _ _ _ _ hne]
      have e1 : (encodePath == encodeHost) = false := by decide
      have e2 : (encodePath == encodeZone) = false := by decide
      have e3 : (encodePath == encodeQueryComponent) = false := by decide
      simp only [e1, e2, e3, Bool.or_self, Bool.false_and, Bool.false_eq_true, if_false]
      split
      · exact ih n hrest
      · exact ih n hrest

theorem unescapeBuild_escapeAll : ∀ s : GoString, (∀ c ∈ s, c < 256) →
    unescapeBuild encodePath (escapeAll s encodePath) = s := by
  intro s
  induction s with
  | nil => intro _; rfl
  | cons c rest ih =>
    intro hb
    have hc : c < 256 := hb c (by simp)
    have hrest : ∀ d ∈ rest, d < 256 := fun d hd => hb d (by simp [hd])
    rw [escapeAll_cons]
    by_cases he : shouldEscape c encodePath = true
    · have h1 := (hex_upperhex (c / 16) (by omega)).2
      have h2 := (hex_upperhex (c % 16) (by omega)).2
      simp only [he, if_true, List.cons_append, List.nil_append]
      rw [unescapeBuild]
      simp only [beq_self_eq_true, if_true, h1, h2, ih hrest]
      congr 1
      omega
    · have he2 : shouldEscape c encodePath = false := by simpa using he
      have hne : (c == ch '%') = false := by
        cases hq : (c == ch '%') with
        | false => rfl
        | true =>
          have : c = ch '%' := by simpa using hq
          rw [this, shouldEscape_percent] at he2
          cases he2
      simp only [he2, Bool.false_eq_true, if_false, List.cons_append, List.nil_append]
      rw [unescapeBuild_cons_ne _ _ _ hne, ih hrest]
      have e3 : (encodePath == encodeQueryComponent) = false := by decide
      simp only [e3, Bool.false_eq_true, if_false]
      split
      · rename_i hp
        have : c = ch '+' := by simpa using hp
        rw [this]
      · rfl

/-- Escaping a path and unescaping the result gives the path back. -/
theorem unescape_escape_path (s : GoString) (hb : ∀ c ∈ s, c < 256) :
    unescape (escape s encodePath) encodePath = .ok s := by
  rw [escape_eq_escapeAll]
  unfold unescape
  rw [unescapeCheck_escapeAll s 0 hb]
  simp only [Nat.zero_add, Bool.not_false, Bool.and_true]
  split
  · rename_i h0
    have hlen : (s.filter (fun c => shouldEscape c encodePath)).length = 0 := by simpa using h0
    have hnil : s.filter (fun c => shouldEscape c encodePath) = [] := List.length_eq_zero.1 hlen
    have hall : s.all (fun c => !shouldEscape c encodePath) = true := by
      rw [List.all_eq_true]
      intro c hc
      have := List.filter_eq_nil_iff.1 hnil c hc
      simpa using this
    rw [escapeAll_of_all s hall]
  · rw [unescapeBuild_escapeAll s hb]

/-! ## Resolving the empty reference -/

theorem EscapedPath_cases (u : URL) :
    (u.RawPath ≠ [] ∧ validEncoded u.RawPath encodePath = true ∧
        unescape u.RawPath encodePath = .ok u.Path ∧ u.EscapedPath = u.RawPath) ∨
      (u.Path = gostr "*" ∧ u.EscapedPath = gostr "*") ∨
      (u.Path ≠ gostr "*" ∧ u.EscapedPath = escape u.Path encodePath) := by
  unfold URL.EscapedPath
  split
  · rename_i h
    simp only [Bool.and_eq_true, bne_iff_ne, ne_eq] at h
    obtain ⟨⟨h1, h2⟩, h3⟩ := h
    left
    refine ⟨h1, h2, ?_, rfl⟩
    cases hu : unescape u.RawPath encodePath with
    | error e => rw [hu] at h3; simp at h3
    | ok p =>
      rw [hu] at h3
      have : p = u.Path := by simpa using h3
      rw [this]
  · split
    · rename_i h
      right; left
      exact ⟨by simpa using h, rfl⟩
    · rename_i h
      right; right
      exact ⟨by simpa using h, rfl⟩

theorem EscapedPath_of_raw (u : URL) (h1 : u.RawPath ≠ [])
    (h2 : validEncoded u.RawPath encodePath = true)
    (h3 : unescape u.RawPath encodePath = .ok u.Path) : u.EscapedPath = u.RawPath := by
  unfold URL.EscapedPath
  rw [h3]
  simp [h1, h2]

theorem EscapedPath_of_noraw (u : URL) (h1 : u.RawPath = []) (h2 : u.Path ≠ gostr "*") :
    u.EscapedPath = escape u.Path encodePath := by
  unfold URL.EscapedPath
  rw [h1]
  simp [h2]

theorem setPath_ok (u : URL) (p path : GoString) (h : unescape p encodePath = .ok path) :
    u.setPathIgnoringError p =
      { u with Path := path, RawPath := if p == escape path encodePath then [] else p } := by
  unfold URL.setPathIgnoringError URL.setPath
  rw [h]
  simp only [bind, Except.bind, pure, Except.pure]
  by_cases hc : (p == escape path encodePath) = true
  · simp only [hc, if_true]
  · simp only [hc]
    rfl

/-- Setting the path of any URL to the escaped path of `root` gives that URL
with the path and the escaped path of `root`, when that escaped path is free
of dot segments. -/
theorem setPath_EscapedPath (root u : URL) (hb : ∀ c ∈ root.Path, c < 256)
    (hres : resolvePath root.EscapedPath [] = root.EscapedPath) :
    ∃ rp : GoString,
      u.setPathIgnoringError root.EscapedPath = { u with Path := root.Path, RawPath := rp } ∧
      URL.EscapedPath { u with Path := root.Path, RawPath := rp } = root.EscapedPath := by
  have hstar : resolvePath (gostr "*") [] ≠ gostr "*" := by decide
  have hstar2 : resolvePath (escape (gostr "*") encodePath) [] ≠ escape (gostr "*") encodePath := by
    decide
  rcases EscapedPath_cases root with ⟨h1, h2, h3, h4⟩ | ⟨h1, h2⟩ | ⟨h1, h2⟩
  · rw [h4] at hres ⊢
    refine ⟨_, setPath_ok u _ _ h3, ?_⟩
    by_cases hc : (root.RawPath == escape root.Path encodePath) = true
    · have he : root.RawPath = escape root.Path encodePath := by simpa using hc
      have hns : root.Path ≠ gostr "*" := by
        intro hs
        rw [hs] at he
        rw [he] at hres
        exact hstar2 hres
      simp only [hc, if_true]
      refine Eq.trans (EscapedPath_of_noraw _ ?_ ?_) he.symm
      · rfl
      · exact hns
    · have hc2 : (root.RawPath == escape root.Path encodePath) = false := by simpa using hc
      simp only [hc2, Bool.false_eq_true, if_false]
      refine EscapedPath_of_raw _ ?_ ?_ ?_
      · exact h1
      · exact h2
      · exact h3
  · rw [h2] at hres
    exact absurd hres hstar
  · rw [h2]
    refine ⟨_, setPath_ok u _ _ (unescape_escape_path root.Path hb), ?_⟩
    simp only [beq_self_eq_true, if_true]
    refine EscapedPath_of_noraw _ ?_ ?_
    · rfl
    · exact h1

/-- Two URLs with an empty fragment serialise alike when they agree on the
parts that `String` reads. -/
theorem String_congr (u v : URL) (h1 : u.Scheme = v.Scheme) (h2 : u.Opaque = v.Opaque)
    (h3 : u.User = v.User) (h4 : u.Host = v.Host) (h5 : u.Path = v.Path)
    (h6 : u.EscapedPath = v.EscapedPath) (h7 : u.OmitHost = v.OmitHost)
    (h8 : u.ForceQuery = v.ForceQuery) (h9 : u.RawQuery = v.RawQuery)
    (h10 : u.Fragment = []) (h11 : v.Fragment = []) : u.String = v.String := by
  unfold URL.String
  rw [h1, h2, h3, h4, h5, h6, h7, h8, h9, h10, h11]
  rfl

/-- A URL with an opaque part and an empty fragment serialises from its
scheme, opaque part and query alone. -/
theorem String_congr_opaque (u v : URL) (h1 : u.Scheme = v.Scheme) (h2 : u.Opaque = v.Opaque)
    (hne : v.Opaque ≠ []) (h8 : u.ForceQuery = v.ForceQuery) (h9 : u.RawQuery = v.RawQuery)
    (h10 : u.Fragment = []) (h11 : v.Fragment = []) : u.String = v.String := by
  unfold URL.String
  rw [h1, h2, h8, h9, h10, h11]
  simp [hne]

/-- Against a canonical source URL the empty reference resolves to the source
URL string. -/
theorem resolveHref_empty_of_canonical (rootUrl : GoString) (root : URL)
    (hb : ∀ c ∈ root.Path, c < 256) (hc : CanonicalSource rootUrl root) :
    resolveHref root [] = some rootUrl := by
  obtain ⟨hstr, hfrag, hfq, hoh, hres⟩ := hc
  have hP : Parse [] = .ok {} := rfl
  unfold resolveHref URL.Parse
  rw [hP]
  simp only
  rw [← hstr]
  congr 1
  unfold URL.ResolveReference
  have hep : URL.EscapedPath {} = [] := rfl
  simp only [hep]
  by_cases ho : root.Opaque = []
  · simp only [ho]
    simp only [bne_self_eq_false, Bool.false_eq_true, if_false, Option.isSome_none,
      Bool.or_self, beq_self_eq_true, Bool.not_false, Bool.and_self, if_true, Bool.and_false]
    rw [hres]
    obtain ⟨rp, hset, hesc⟩ := setPath_EscapedPath root
      { Scheme := root.Scheme, RawQuery := root.RawQuery, Fragment := root.Fragment,
        RawFragment := root.RawFragment, Host := root.Host, User := root.User } hb hres
    rw [hset]
    apply String_congr
    · rfl
    · exact ho.symm
    · rfl
    · rfl
    · rfl
    · exact hesc
    · exact hoh.symm
    · exact hfq.symm
    · rfl
    · rfl
    · exact hfrag
  · have ho2 : (root.Opaque != []) = true := by simpa using ho
    simp only [ho2]
    simp only [bne_self_eq_false, Bool.false_eq_true, if_false, Option.isSome_none,
      Bool.or_self, beq_self_eq_true, Bool.not_false, Bool.and_self, if_true]
    apply String_congr_opaque
    · rfl
    · rfl
    · exact ho
    · exact hfq.symm
    · rfl
    · rfl
    · exact hfrag

/-! ## Byte values -/

theorem unhex_le (c : Nat) : unhex c ≤ 15 := by
  unfold unhex
  have h0 : ch '0' = 48 := by decide
  have h9 : ch '9' = 57 := by decide
  have ha : ch 'a' = 97 := by decide
  have hf : ch 'f' = 102 := by decide
  have hA : ch 'A' = 65 := by decide
  have hF : ch 'F' = 70 := by decide
  rw [h0, h9, ha, hf, hA, hF]
  split
  · omega
  · split
    · omega
    · split <;> omega

theorem unescapeBuild_bytes (mode : encoding) : ∀ (n : Nat) (s : GoString), s.length ≤ n →
    (∀ c ∈ s, c < 256) → ∀ c ∈ unescapeBuild mode s, c < 256 := by
  intro n
  induction n with
  | zero =>
    intro s hl _ c hc
    have : s = [] := List.length_eq_zero.1 (Nat.le_zero.1 hl)
    subst this
    simp [unescapeBuild] at hc
  | succ n ih =>
    intro s hl hb c hc
    rcases s with _ | ⟨a, t⟩
    · simp [unescapeBuild] at hc
    · have ht : ∀ d ∈ t, d < 256 := fun d hd => hb d (by simp [hd])
      have hlt : t.length ≤ n := by simpa using hl
      by_cases hp : (a == ch '%') = true
      · rcases t with _ | ⟨h1, _ | ⟨h2, r⟩⟩
        · simp [unescapeBuild, hp] at hc
        · simp [unescapeBuild, hp] at hc
        · simp only [unescapeBuild, hp, if_true, List.mem_cons] at hc
          rcases hc with hc | hc
          · have := unhex_le h1
            have := unhex_le h2
            omega
          · refine ih r ?_ (fun d hd => ht d (by simp [hd])) c hc
            simp only [List.length_cons] at hlt
            omega
      · have hp2 : (a == ch '%') = false := by simpa using hp
        rw [unescapeBuild_cons_ne _ _ _ hp2] at hc
        have hsp : ch ' ' < 256 := by decide
        have hpl : ch '+' < 256 := by decide
        split at hc
        · simp only [List.mem_cons] at hc
          rcases hc with hc | hc
          · rw [hc]; split <;> assumption
          · exact ih t hlt ht c hc
        · simp only [List.mem_cons] at hc
          rcases hc with hc | hc
          · rw [hc]; exact hb a (by simp)
          · exact ih t hlt ht c hc

theorem unescape_bytes (s t : GoString) (mode : encoding) (h : unescape s mode = .ok t)
    (hb : ∀ c ∈ s, c < 256) : ∀ c ∈ t, c < 256 := by
  unfold unescape at h
  split at h
  · cases h
  · split at h
    · simp only [Except.ok.injEq] at h
      subst h
      exact hb
    · simp only [Except.ok.injEq] at h
      subst h
      exact unescapeBuild_bytes mode s.length s (Nat.le_refl _) hb

theorem setPath_Path_bytes (u v : URL) (p : GoString) (h : u.setPath p = .ok v)
    (hb : ∀ c ∈ p, c < 256) : ∀ c ∈ v.Path, c < 256 := by
  unfold URL.setPath at h
  cases hu : unescape p encodePath with
  | error e => simp [hu, bind, Except.bind] at h
  | ok path =>
    simp only [hu, bind, Except.bind, pure, Except.pure] at h
    have hp := unescape_bytes p path encodePath hu hb
    split at h <;>
    · simp only [Except.ok.injEq] at h
      subst h
      exact hp

theorem parseHierStep_Path_bytes (v : Bool) (rest : GoString) (url u : URL)
    (hr : ∀ c ∈ rest, c < 256) (hP : url.Path = [])
    (h : parseHierStep v rest url = .ok u) : ∀ c ∈ u.Path, c < 256 := by
  unfold parseHierStep at h
  split at h
  · simp only [pure, Except.pure, Except.ok.injEq] at h
    subst h
    simp [hP]
  split at h
  · cases h
  split at h
  · cases h
  split at h
  · simp only [bind, Except.bind] at h
    split at h
    · cases h
    · refine setPath_Path_bytes _ _ _ h ?_
      intro c hc
      split at hc
      · exact hr c (List.mem_of_mem_drop (List.mem_of_mem_drop hc))
      · simp at hc
  split at h
  · exact setPath_Path_bytes _ _ _ h hr
  · exact setPath_Path_bytes _ _ _ h hr

theorem parseQueryStep_Path (scheme rest : GoString) :
    (parseQueryStep scheme rest).2.Path = [] ∧
      ∀ c ∈ (parseQueryStep scheme rest).1, c ∈ rest := by
  unfold parseQueryStep
  split
  · exact ⟨rfl, fun c hc => List.mem_of_mem_take hc⟩
  · exact ⟨rfl, fun c hc => Cut_fst_subset _ _ _ hc⟩

theorem parse_Path_bytes (raw : GoString) (v : Bool) (u : URL) (hraw : ∀ c ∈ raw, c < 256)
    (h : parse raw v = .ok u) : ∀ c ∈ u.Path, c < 256 := by
  rw [parse_eq] at h
  split at h
  · cases h
  split at h
  · cases h
  split at h
  · simp only [Except.ok.injEq] at h
    subst h
    decide
  split at h
  · cases h
  · rename_i scheme rest hg
    obtain ⟨-, hrest⟩ := getSchemeLoop_subset raw raw 0 scheme rest (fun c hc => hc) hg
    obtain ⟨a1, a2⟩ := parseQueryStep_Path scheme rest
    exact parseHierStep_Path_bytes v _ _ u (fun c hc => hraw c (hrest c (a2 c hc))) a1 h

/-- The path of a parsed byte string consists of bytes. -/
theorem Parse_Path_bytes (raw : GoString) (u : URL) (hraw : ∀ c ∈ raw, c < 256)
    (h : Parse raw = .ok u) : ∀ c ∈ u.Path, c < 256 := by
  unfold Parse at h
  cases hp : parse (Cut raw (ch '#')).1 false with
  | error e => simp [hp] at h
  | ok url =>
    have hu := parse_Path_bytes _ _ _ (fun c hc => hraw c (Cut_fst_subset _ _ _ hc)) hp
    simp only [hp] at h
    split at h
    · simp only [Except.ok.injEq] at h
      subst h
      exact hu
    · cases hsf : url.setFragment (Cut raw (ch '#')).2.1 with
      | error e => simp [hsf] at h
      | ok w =>
        simp only [hsf, Except.ok.injEq] at h
        subst h
        have : w.Path = url.Path := by
          unfold URL.setFragment at hsf
          cases hx : unescape (Cut raw (ch '#')).2.1 encodeFragment with
          | error e => simp [hx, bind, Except.bind] at hsf
          | ok frag =>
            simp only [hx, bind, Except.bind, pure, Except.pure] at hsf
            split at hsf <;>
            · simp only [Except.ok.injEq] at hsf
              subst hsf
              rfl
        rw [this]
        exact hu

/-! ## Plain `http` URLs are canonical -/

theorem isAlnum_range (c : Nat) (h : isAlnum c = true) :
    (97 ≤ c ∧ c ≤ 122) ∨ (65 ≤ c ∧ c ≤ 90) ∨ (48 ≤ c ∧ c ≤ 57) := by
  unfold isAlnum at h
  have e1 : ch 'a' = 97 := by decide
  have e2 : ch 'z' = 122 := by decide
  have e3 : ch 'A' = 65 := by decide
  have e4 : ch 'Z' = 90 := by decide
  have e5 : ch '0' = 48 := by decide
  have e6 : ch '9' = 57 := by decide
  rw [e1, e2, e3, e4, e5, e6] at h
  simp only [Bool.or_eq_true, Bool.and_eq_true, decide_eq_true_eq] at h
  omega

theorem alnum_not_mem (x : Nat) (hx : isAlnum x = false) (s : GoString)
    (hs : ∀ c ∈ s, isAlnum c = true) : x ∉ s := by
  intro hm
  rw [hs x hm] at hx
  cases hx

theorem shouldEscape_alnum (c : Nat) (mode : encoding) (h : isAlnum c = true) :
    shouldEscape c mode = false := by
  unfold shouldEscape
  unfold isAlnum at h
  rw [if_pos h]

theorem Cut_not_mem (x : Nat) : ∀ s : GoString, x ∉ s → Cut s x = (s, [], false) := by
  intro s
  induction s with
  | nil => intro _; rfl
  | cons a t ih =>
    intro h
    simp only [List.mem_cons, not_or] at h
    have hne : (a == x) = false := by
      simpa using fun e : a = x => h.1 e.symm
    unfold Cut
    simp only [hne, Bool.false_eq_true, if_false, ih h.2]

theorem IndexByte_append (x : Nat) : ∀ (s t : GoString), x ∉ s →
    IndexByte (s ++ x :: t) x = some s.length := by
  intro s
  induction s with
  | nil => intro t _; simp [IndexByte]
  | cons a r ih =>
    intro t h
    simp only [List.mem_cons, not_or] at h
    have hne : (a == x) = false := by
      simpa using fun e : a = x => h.1 e.symm
    have hi := ih t h.2
    show IndexByte (a :: (r ++ x :: t)) x = some (r.length + 1)
    unfold IndexByte
    simp only [hne, Bool.false_eq_true, if_false, hi, Option.map_some']

theorem LastIndexByte_not_mem (x : Nat) : ∀ s : GoString, x ∉ s → LastIndexByte s x = none := by
  intro s
  induction s with
  | nil => intro _; rfl
  | cons a r ih =>
    intro h
    simp only [List.mem_cons, not_or] at h
    have hne : (a == x) = false := by
      simpa using fun e : a = x => h.1 e.symm
    simp only [LastIndexByte, ih h.2, hne, Bool.false_eq_true, if_false]

theorem unescapeCheck_plain (mode : encoding) : ∀ (s : GoString) (n : Nat) (hp : Bool),
    (∀ c ∈ s, c ≠ ch '%' ∧ c ≠ ch '+' ∧
      (((mode == encodeHost || mode == encodeZone) && decide (c < 0x80) &&
        shouldEscape c encodeHost) = false)) →
    unescapeCheck mode s n hp = .ok (n, hp) := by
  intro s
  induction s with
  | nil => intro n hp _; rfl
  | cons a t ih =>
    intro n hp h
    obtain ⟨h1, h2, h3⟩ := h a (by simp)
    have hne : (a == ch '%') = false := by simpa using h1
    have hne2 : (a == ch '+') = false := by simpa using h2
    rw [unescapeCheck_cons_ne _ _ _ _ _ hne]
    simp only [hne2, Bool.false_eq_true, if_false, h3]
    exact ih n hp (fun c hc => h c (by simp [hc]))

theorem unescape_plain (mode : encoding) (s : GoString)
    (h : ∀ c ∈ s, c ≠ ch '%' ∧ c ≠ ch '+' ∧
      (((mode == encodeHost || mode == encodeZone) && decide (c < 0x80) &&
        shouldEscape c encodeHost) = false)) :
    unescape s mode = .ok s := by
  unfold unescape
  rw [unescapeCheck_plain mode s 0 false h]
  rfl

theorem escape_plain (mode : encoding) (s : GoString)
    (h : ∀ c ∈ s, shouldEscape c mode = false) : escape s mode = s := by
  unfold escape
  rw [if_pos]
  rw [List.all_eq_true]
  intro c hc
  simp [h c hc]

theorem plainHttpUrl_eq (host seg : GoString) :
    plainHttpUrl host seg = 104 :: 116 :: 116 :: 112 :: 58 :: 47 :: 47 :: (host ++ 47 :: seg) := by
  have h1 : gostr "http://" = [104, 116, 116, 112, 58, 47, 47] := by decide
  have h2 : gostr "/" = [47] := by decide
  simp [plainHttpUrl, h1, h2]

theorem plain_not_mem (x : Nat) (hx : isAlnum x = false) (hx2 : x ≠ 47) (host seg : GoString)
    (hh : ∀ c ∈ host, isAlnum c = true) (hs : ∀ c ∈ seg, isAlnum c = true) :
    x ∉ host ++ 47 :: seg := by
  simp only [List.mem_append, List.mem_cons, not_or]
  exact ⟨alnum_not_mem x hx host hh, hx2, alnum_not_mem x hx seg hs⟩

theorem getScheme_plainHttp (host seg : GoString) :
    getScheme (plainHttpUrl host seg) =
      .ok (gostr "http", 47 :: 47 :: (host ++ 47 :: seg)) := by
  rw [plainHttpUrl_eq]
  rfl

theorem parseQueryStep_plain (rest : GoString) (h : ch '?' ∉ rest) :
    parseQueryStep (gostr "http") rest = (rest, { Scheme := gostr "http" }) := by
  unfold parseQueryStep
  have hc : CountByte rest (ch '?') = 0 := by
    unfold CountByte
    exact List.count_eq_zero.2 h
  have hl : ToLower (gostr "http") = gostr "http" := by decide
  rw [hc, Cut_not_mem _ _ h, hl]
  simp

theorem parseHost_plain (host : GoString) (hh : ∀ c ∈ host, isAlnum c = true) :
    parseHost host = .ok host := by
  have hb : HasPrefix host (gostr "[") = false := by
    rcases host with _ | ⟨a, t⟩
    · rfl
    · have ha := isAlnum_range a (hh a (by simp))
      have : (a == 91) = false := by
        simp only [beq_eq_false_iff_ne, ne_eq]
        omega
      have hg : gostr "[" = [91] := by decide
      rw [hg]
      simp [HasPrefix, this]
  have hcolon : LastIndexByte host (ch ':') = none :=
    LastIndexByte_not_mem _ _ (alnum_not_mem _ (by decide) host hh)
  have hun : unescape host encodeHost = .ok host := by
    apply unescape_plain
    intro c hc
    have hr := isAlnum_range c (hh c hc)
    have e1 : ch '%' = 37 := by decide
    have e2 : ch '+' = 43 := by decide
    rw [e1, e2]
    refine ⟨by omega, by omega, ?_⟩
    rw [shouldEscape_alnum c encodeHost (hh c hc)]
    simp
  unfold parseHost
  simp only [hb, Bool.false_eq_true, if_false, hcolon, hun]

theorem parseAuthority_plain (host : GoString) (hh : ∀ c ∈ host, isAlnum c = true) :
    parseAuthority host = .ok (none, host) := by
  have hat : LastIndexByte host (ch '@') = none :=
    LastIndexByte_not_mem _ _ (alnum_not_mem _ (by decide) host hh)
  unfold parseAuthority
  simp only [hat, parseHost_plain host hh]
  rfl

theorem path_plain (seg : GoString) (hs : ∀ c ∈ seg, isAlnum c = true) :
    unescape (47 :: seg) encodePath = .ok (47 :: seg) ∧
      escape (47 :: seg) encodePath = 47 :: seg := by
  constructor
  · apply unescape_plain
    intro c hc
    have e1 : ch '%' = 37 := by decide
    have e2 : ch '+' = 43 := by decide
    have e3 : (encodePath == encodeHost) = false := by decide
    have e4 : (encodePath == encodeZone) = false := by decide
    rw [e1, e2, e3, e4]
    simp only [List.mem_cons] at hc
    rcases hc with hc | hc
    · subst hc
      exact ⟨by decide, by decide, by simp⟩
    · have hr := isAlnum_range c (hs c hc)
      exact ⟨by omega, by omega, by simp⟩
  · apply escape_plain
    intro c hc
    simp only [List.mem_cons] at hc
    rcases hc with hc | hc
    · subst hc
      decide
    · exact shouldEscape_alnum c encodePath (hs c hc)

theorem setPath_plain (u : URL) (seg : GoString) (hs : ∀ c ∈ seg, isAlnum c = true) :
    u.setPath (47 :: seg) = .ok { u with Path := 47 :: seg, RawPath := [] } := by
  obtain ⟨h1, h2⟩ := path_plain seg hs
  unfold URL.setPath
  rw [h1]
  simp only [bind, Except.bind, pure, Except.pure, h2, beq_self_eq_true, if_true]

theorem HasPrefix_nil (s : GoString) : HasPrefix s [] = true := by
  cases s <;> rfl

theorem parseHierStep_plain (host seg : GoString) (hh : ∀ c ∈ host, isAlnum c = true)
    (hs : ∀ c ∈ seg, isAlnum c = true) :
    parseHierStep false (47 :: 47 :: (host ++ 47 :: seg)) { Scheme := gostr "http" } =
      .ok (plainHttpRoot host seg) := by
  have hidx : IndexByte (host ++ 47 :: seg) (ch '/') = some host.length :=
    IndexByte_append 47 host seg (alnum_not_mem 47 (by decide) host hh)
  have hp1 : HasPrefix (47 :: 47 :: (host ++ 47 :: seg)) (gostr "/") = true := rfl
  have hp2 : HasPrefix (47 :: 47 :: (host ++ 47 :: seg)) (gostr "//") = true := by
    have hg : gostr "//" = [47, 47] := by decide
    rw [hg]
    simp [HasPrefix, HasPrefix_nil]
  have hsch : ((gostr "http" : GoString) != []) = true := by decide
  unfold parseHierStep
  simp only [hp1, hp2, hsch, Bool.not_true, Bool.false_and, Bool.false_eq_true, if_false,
    Bool.true_or, Bool.and_self, if_true, List.drop_succ_cons, List.drop_zero, hidx,
    List.take_left', List.drop_left', bind, Except.bind, parseAuthority_plain host hh,
    setPath_plain _ seg hs]
  have hg : gostr "/" = [47] := by decide
  simp [plainHttpRoot, hg]

theorem ctl_plainHttp (host seg : GoString) (hh : ∀ c ∈ host, isAlnum c = true)
    (hs : ∀ c ∈ seg, isAlnum c = true) :
    stringContainsCTLByte (plainHttpUrl host seg) = false := by
  rw [plainHttpUrl_eq]
  unfold stringContainsCTLByte
  rw [List.any_eq_false]
  intro c hc
  have e1 : ch ' ' = 32 := by decide
  rw [e1]
  simp only [List.mem_cons, List.mem_append] at hc
  have : 32 ≤ c ∧ c ≠ 127 := by
    rcases hc with h | h | h | h | h | h | h | h | h | h
    all_goals first
      | omega
      | (have hr := isAlnum_range c (hh c h); omega)
      | (have hr := isAlnum_range c (hs c h); omega)
  simp only [Bool.or_eq_true, decide_eq_true_eq, beq_iff_eq, not_or]
  omega

/-- A URL string `http://host/seg` whose host and path segment consist of
ASCII letters and digits parses to the scheme `http`, that host and the path
`/seg`. -/
theorem Parse_plainHttp (host seg : GoString) (hh : ∀ c ∈ host, isAlnum c = true)
    (hs : ∀ c ∈ seg, isAlnum c = true) :
    Parse (plainHttpUrl host seg) = .ok (plainHttpRoot host seg) := by
  have hhash : ch '#' ∉ plainHttpUrl host seg := by
    rw [plainHttpUrl_eq]
    have := plain_not_mem (ch '#') (by decide) (by decide) host seg hh hs
    have e : ch '#' = 35 := by decide
    rw [e] at this ⊢
    simp only [List.mem_cons, not_or]
    exact ⟨by omega, by omega, by omega, by omega, by omega, by omega, by omega, this⟩
  have hq : ch '?' ∉ (47 :: 47 :: (host ++ 47 :: seg) : GoString) := by
    have := plain_not_mem (ch '?') (by decide) (by decide) host seg hh hs
    have e : ch '?' = 63 := by decide
    rw [e] at this ⊢
    simp only [List.mem_cons, not_or]
    exact ⟨by omega, by omega, this⟩
  have hne1 : (plainHttpUrl host seg == []) = false := by
    rw [plainHttpUrl_eq]; rfl
  have hne2 : (plainHttpUrl host seg == gostr "*") = false := by
    rw [plainHttpUrl_eq]
    have hg : gostr "*" = [42] := by decide
    rw [hg]
    simp
  have hparse : parse (plainHttpUrl host seg) false = .ok (plainHttpRoot host seg) := by
    rw [parse_eq, ctl_plainHttp host seg hh hs, hne1, hne2, getScheme_plainHttp]
    simp only [Bool.false_eq_true, if_false, Bool.false_and, parseQueryStep_plain _ hq]
    exact parseHierStep_plain host seg hh hs
  unfold Parse
  rw [Cut_not_mem _ _ hhash]
  simp only [hparse]
  rfl

theorem cutAll_not_mem (x : Nat) : ∀ s : GoString, x ∉ s → cutAll s x = [s] := by
  intro s
  induction s with
  | nil => intro _; rfl
  | cons a t ih =>
    intro h
    simp only [List.mem_cons, not_or] at h
    have hne : (a == x) = false := by
      simpa using fun e : a = x => h.1 e.symm
    unfold cutAll
    simp only [hne, Bool.false_eq_true, if_false, ih h.2]

theorem resolvePath_plain (seg : GoString) (hs : ∀ c ∈ seg, isAlnum c = true) :
    resolvePath (47 :: seg) [] = 47 :: seg := by
  have hslash : (47 : Nat) ∉ seg := alnum_not_mem 47 (by decide) seg hs
  have hdot : (46 : Nat) ∉ seg := alnum_not_mem 46 (by decide) seg hs
  have h1 : (seg == gostr ".") = false := by
    have hg : gostr "." = [46] := by decide
    rw [hg]
    simp only [beq_eq_false_iff_ne, ne_eq]
    intro e
    rw [e] at hdot
    simp at hdot
  have h2 : (seg == gostr "..") = false := by
    have hg : gostr ".." = [46, 46] := by decide
    rw [hg]
    simp only [beq_eq_false_iff_ne, ne_eq]
    intro e
    rw [e] at hdot
    simp at hdot
  have hcut : cutAll (47 :: seg) (ch '/') = [[], seg] := by
    have e : ch '/' = 47 := by decide
    rw [e]
    unfold cutAll
    simp only [beq_self_eq_true, if_true, cutAll_not_mem 47 seg hslash]
  have hstep1 : resolvePathStep { dst := gostr "/", first := true } [] =
      { dst := gostr "/", first := false } := by decide
  have hg : gostr "/" = [47] := by decide
  unfold resolvePath
  simp only [beq_self_eq_true, if_true, hcut, List.foldl_cons, List.foldl_nil, hstep1]
  have hne : ((47 :: seg : GoString) == []) = false := rfl
  simp only [hne, Bool.false_eq_true, if_false]
  unfold resolvePathStep
  simp only [h1, h2, Bool.false_eq_true, if_false, Bool.or_self, hg]
  have h1p : seg ≠ gostr "." := by simpa using h1
  have h2p : seg ≠ gostr ".." := by simpa using h2
  have e : ch '/' = 47 := by decide
  simp [h1p, h2p, e]

/-- Every URL string `http://host/seg` whose host and path segment consist of
ASCII letters and digits is a byte string in canonical form. -/
theorem plainHttp_canonical (host seg : GoString) (hh : ∀ c ∈ host, isAlnum c = true)
    (hs : ∀ c ∈ seg, isAlnum c = true) :
    (∀ c ∈ plainHttpUrl host seg, c < 256) ∧
      CanonicalSource (plainHttpUrl host seg) (plainHttpRoot host seg) := by
  have hg : gostr "/" = [47] := by decide
  have hpath : (plainHttpRoot host seg).Path = 47 :: seg := by
    simp [plainHttpRoot, hg]
  have hesc : (plainHttpRoot host seg).EscapedPath = 47 :: seg := by
    rw [EscapedPath_of_noraw _ rfl, hpath]
    · exact (path_plain seg hs).2
    · rw [hpath]
      have hs : gostr "*" = [42] := by decide
      rw [hs]
      simp
  constructor
  · rw [plainHttpUrl_eq]
    intro c hc
    simp only [List.mem_cons, List.mem_append] at hc
    rcases hc with h | h | h | h | h | h | h | h | h | h
    all_goals first
      | omega
      | (have hr := isAlnum_range c (hh c h); omega)
      | (have hr := isAlnum_range c (hs c h); omega)
  · refine ⟨?_, rfl, rfl, rfl, ?_⟩
    · have hhost : escape host encodeHost = host :=
        escape_plain _ _ (fun c hc => shouldEscape_alnum c encodeHost (hh c hc))
      unfold URL.String
      rw [hesc]
      simp only [plainHttpRoot, hhost]
      rw [plainHttpUrl_eq]
      have e1 : gostr "http" = [104, 116, 116, 112] := by decide
      have e2 : gostr ":" = [58] := by decide
      have e3 : gostr "//" = [47, 47] := by decide
      have e4 : ch '/' = 47 := by decide
      rw [e1, e2, e3, hg]
      by_cases hhe : host = [] <;> simp [hhe, e4]
    · rw [hesc]
      exact resolvePath_plain seg hs

/-! ## Fragment-only hrefs against a canonical source URL -/

/-- C3, amended: a fragment-only href (`#` followed by any text) that
resolves without error resolves, once the fragment is stripped, to the string
the empty reference resolves to. When the source URL is a byte string in
canonical form (its parse serialises back to it, it has no fragment and no
bare trailing `?`, its host is not omitted and its path has no dot segments),
that string is the source URL string itself, so the element is counted in
`Duplicates` and not in `ValidUrl`, the map `added` is unchanged and no line
is written for it: the stats and writes of the call are those of the call
without the element, with `Elements`, `WithHref` and `Duplicates` one
higher. Every source URL `http://host/seg` whose host and path segment
consist of ASCII letters and digits is such a byte string in canonical
form. -/
theorem fragment_only_href_duplicate (env env2 : Env) (rootUrl selector : GoString)
    (w : Writer) (root abs : URL) (doc doc2 : Document) (pre post : List Node) (el : Node)
    (frag : GoString) (h0 : rootUrl ≠ []) (hp : Parse rootUrl = .ok root)
    (hf : fetchGoqueryUrl env rootUrl = .ok doc) (hd : doc.Find selector = pre ++ el :: post)
    (hf2 : fetchGoqueryUrl env2 rootUrl = .ok doc2) (hd2 : doc2.Find selector = pre ++ post)
    (ha : el.AttrValue (gostr "href") = some (ch '#' :: frag))
    (hr : root.Parse (ch '#' :: frag) = .ok abs) :
    URL.String { abs with Fragment := [] } =
        URL.String { (root.ResolveReference {}) with Fragment := [] } ∧
      ((∀ c ∈ rootUrl, c < 256) → CanonicalSource rootUrl root →
        URL.String { abs with Fragment := [] } = rootUrl ∧
        (∀ st : LoopState, loopBody root rootUrl st el =
          { st with stats := { st.stats with WithHref := st.stats.WithHref + 1,
                                             Duplicates := st.stats.Duplicates + 1 } }) ∧
        (FetchAndWriteHrefAttrs env rootUrl selector w).err = none ∧
        (FetchAndWriteHrefAttrs env rootUrl selector w).w =
          (FetchAndWriteHrefAttrs env2 rootUrl selector w).w ∧
        (FetchAndWriteHrefAttrs env rootUrl selector w).stats =
          (FetchAndWriteHrefAttrs env2 rootUrl selector w).stats.map (Stats.bump 1 1 1)) ∧
      (∀ host seg : GoString, (∀ c ∈ host, isAlnum c = true) → (∀ c ∈ seg, isAlnum c = true) →
        Parse (plainHttpUrl host seg) = .ok (plainHttpRoot host seg) ∧
        (∀ c ∈ plainHttpUrl host seg, c < 256) ∧
        CanonicalSource (plainHttpUrl host seg) (plainHttpRoot host seg)) := by
  have hsome : resolveHref root (ch '#' :: frag) = some (URL.String { abs with Fragment := [] }) := by
    unfold resolveHref
    rw [hr]
  have hempty : resolveHref root [] =
      some (URL.String { (root.ResolveReference {}) with Fragment := [] }) := by
    unfold resolveHref URL.Parse
    rw [Parse_empty]
  have hsame : URL.String { abs with Fragment := [] } =
      URL.String { (root.ResolveReference {}) with Fragment := [] } := by
    have h1 := resolveHref_fragment_only root frag (by rw [hsome]; simp)
    rw [hsome, hempty] at h1
    exact Option.some.inj h1
  refine ⟨hsame, ?_, fun host seg hh hs =>
    ⟨Parse_plainHttp host seg hh hs, plainHttp_canonical host seg hh hs⟩⟩
  intro hbytes hcanon
  have hres : resolveHref root (ch '#' :: frag) = some rootUrl := by
    rw [resolveHref_fragment_only root frag (by rw [hsome]; simp)]
    exact resolveHref_empty_of_canonical rootUrl root (Parse_Path_bytes rootUrl root hbytes hp)
      hcanon
  have hstr : URL.String { abs with Fragment := [] } = rootUrl := by
    rw [hsome] at hres
    exact Option.some.inj hres
  have hstep : ∀ st : LoopState, loopBody root rootUrl st el =
      { st with stats := { st.stats with WithHref := st.stats.WithHref + 1,
                                         Duplicates := st.stats.Duplicates + 1 } } :=
    fun st => loopBody_duplicate root rootUrl st el _ rootUrl ha hres (Or.inl rfl)
  have hbody : ∀ st : LoopState, loopBody root rootUrl st el = st.bump 0 1 1 := by
    intro st
    rw [hstep st]
    simp [LoopState.bump]
  rw [FetchAndWriteHrefAttrs_ok env rootUrl selector w root doc h0 hp hf,
    FetchAndWriteHrefAttrs_ok env2 rootUrl selector w root doc2 h0 hp hf2, hd, hd2]
  have hinit : (⟨{ Elements := ((pre ++ el :: post).length : Int) }, [], w⟩ : LoopState) =
      LoopState.bump 1 0 0 ⟨{ Elements := ((pre ++ post).length : Int) }, [], w⟩ := by
    simp [LoopState.bump]
    ring
  rw [hinit, loop_bump, loop_skip root rootUrl 1 1 el hbody]
  refine ⟨hstr, hstep, rfl, rfl, ?_⟩
  simp [LoopState.bump, Stats.bump]

/-- C3, amended, at the source URL `http://host/1`, which is a byte string
in canonical form, and the anchors `/a`, `#bad`, `/b`. -/
theorem fragment_only_href_duplicate_witness :
    gostr "http://host/1" ≠ [] ∧
    (∀ c ∈ gostr "http://host/1", c < 256) ∧
    CanonicalSource (gostr "http://host/1") hostRoot ∧
    (URL.String { ({ hostRoot with Fragment := gostr "bad" } : URL) with Fragment := [] } =
        gostr "http://host/1" ∧
      (∀ st : LoopState,
        loopBody hostRoot (gostr "http://host/1") st (anchor "#bad") =
          { st with stats := { st.stats with WithHref := st.stats.WithHref + 1,
                                             Duplicates := st.stats.Duplicates + 1 } }) ∧
      (FetchAndWriteHrefAttrs (serverWith [anchor "/a", anchor "#bad", anchor "/b"])
        (gostr "http://host/1") (gostr "a") []).err = none ∧
      (FetchAndWriteHrefAttrs (serverWith [anchor "/a", anchor "#bad", anchor "/b"])
        (gostr "http://host/1") (gostr "a") []).w =
        (FetchAndWriteHrefAttrs (serverWith [anchor "/a", anchor "/b"])
          (gostr "http://host/1") (gostr "a") []).w ∧
      (FetchAndWriteHrefAttrs (serverWith [anchor "/a", anchor "#bad", anchor "/b"])
        (gostr "http://host/1") (gostr "a") []).stats =
        (FetchAndWriteHrefAttrs (serverWith [anchor "/a", anchor "/b"])
          (gostr "http://host/1") (gostr "a") []).stats.map (Stats.bump 1 1 1)) :=
  ⟨by decide, by decide, ⟨rfl, rfl, rfl, rfl, rfl⟩,
    (fragment_only_href_duplicate (serverWith [anchor "/a", anchor "#bad", anchor "/b"])
      (serverWith [anchor "/a", anchor "/b"]) (gostr "http://host/1") (gostr "a") []
      hostRoot { hostRoot with Fragment := gostr "bad" }
      (pageOf [anchor "/a", anchor "#bad", anchor "/b"]) (pageOf [anchor "/a", anchor "/b"])
      [anchor "/a"] [anchor "/b"] (anchor "#bad") (gostr "bad")
      (by decide) rfl rfl rfl rfl rfl rfl rfl).2.1 (by decide) ⟨rfl, rfl, rfl, rfl, rfl⟩⟩

end ExtractHref
